import Mathlib

/-!
# Verification of `fetch-forum-topic-ng`

A shallow embedding, in Lean 4, of the link-rewriting core of the
`fetch-forum-topic` tool (Go).  The repository contains three iterative
variants of the same program:

* the tree-walking variant `src/fetch-forum-topic.go` (parses the page with
  `html.Parse` and rewrites the node tree),
* a tokenizer variant (first program of `src/unnamed/part_000`, lines 1-453)
  which adds a per-page fetched-resource set and a host check,
* a context variant (second program of `src/unnamed/part_000`, lines
  454-1103) which adds a per-page content-type cache and a CSS rewriter.

Pure Go library functions used by the code (`path/filepath.Match`,
`path/filepath.Clean`, `net/url` parsing/resolution) are modelled here as
executable Lean functions following the Go standard-library algorithms
(Unix rules: the path separator is `/`; inputs are assumed free of
percent-escapes, user-info and IPv6 literals, which the tool never
produces).  Network fetches are modelled by an oracle
`GoURL → Option String` giving the content type of a successful fetch, or
`none` for a transport/status failure; for the context variant, whose
`getAndWriteResourceToFile` recursively rewrites fetched stylesheets
through the same per-page cache, a full model `bRec` over an oracle that
also returns the body text is developed alongside the flat per-link one.
-/

/-! ## String helpers

Go `strings` functions, modelled over `List Char` so that all definitions
reduce inside the kernel (`String.startsWith` & co. work on byte positions
and do not). -/

/-- Go `strings.HasPrefix(s, pre)`. -/
def strHasGoPrefix (s pre : String) : Bool :=
  pre.toList.isPrefixOf s.toList

/-- `containsSub pat l`: the character list `pat` occurs as a contiguous
sublist of `l` (Go `strings.Contains`). -/
def containsSub (pat : List Char) : List Char → Bool
  | [] => pat.isEmpty
  | c :: rest => pat.isPrefixOf (c :: rest) || containsSub pat rest

/-- Go `strings.Contains(s, sub)`. -/
def strContains (s sub : String) : Bool :=
  containsSub sub.toList s.toList

/-! ## Go `path/filepath.Match` (Unix)

Faithful port of the matching algorithm (`scanChunk`, `matchChunk`,
`getEsc` and the star loop of `Match`).  `Match` reports whether `name`
matches the shell pattern; `*` matches any sequence of *non-separator*
characters.  The patterns used by the program are well formed and contain
no backslash escapes, so Go's `ErrBadPattern` cases are collapsed into a
failed match (`none`). -/

/-- Strip the leading `*`s of a pattern chunk, reporting whether there was
at least one (the `star` flag of Go's `scanChunk`). -/
def stripStars : List Char → Bool × List Char
  | [] => (false, [])
  | c :: rest => if c = '*' then (true, (stripStars rest).2) else (false, c :: rest)

/-- The scan loop of Go's `scanChunk`: split the pattern into the chunk up
to (but excluding) the next `*` that is not inside a bracket class, and the
remainder.  A backslash escapes the following character. -/
def scanChunkBody : List Char → Bool → List Char × List Char
  | [], _ => ([], [])
  | c :: rest, inrange =>
    if c = '\\' then
      match rest with
      | [] => ([c], [])
      | d :: rest1 =>
        let r := scanChunkBody rest1 inrange
        (c :: d :: r.1, r.2)
    else if c = '[' then
      let r := scanChunkBody rest true
      (c :: r.1, r.2)
    else if c = ']' then
      let r := scanChunkBody rest false
      (c :: r.1, r.2)
    else if c = '*' && !inrange then
      ([], c :: rest)
    else
      let r := scanChunkBody rest inrange
      (c :: r.1, r.2)

/-- Go's `scanChunk`: `(star, chunk, rest)`. -/
def scanChunk (p : List Char) : Bool × List Char × List Char :=
  let s := stripStars p
  let r := scanChunkBody s.2 false
  (s.1, r.1, r.2)

/-- Go's `getEsc`: read one (possibly escaped) character of a bracket
class.  Fails on `-`, `]`, an exhausted chunk, or a class that would end
without `]`. -/
def getEsc : List Char → Option (Char × List Char)
  | [] => none
  | c :: rest =>
    if c = '-' || c = ']' then none
    else if c = '\\' then
      match rest with
      | [] => none
      | d :: rest1 => if rest1.isEmpty then none else some (d, rest1)
    else if rest.isEmpty then none else some (c, rest)

/-- The bracket-class loop of Go's `matchChunk`: consume ranges until the
closing `]`, reporting whether rune `r` matched any range and returning the
rest of the chunk. -/
def matchClassLoop : Nat → Char → Bool → Nat → List Char → Option (Bool × List Char)
  | 0, _, _, _, _ => none
  | fuel+1, r, matched, nrange, chunk =>
    match chunk with
    | ']' :: rest => if 0 < nrange then some (matched, rest) else none
    | _ =>
      match getEsc chunk with
      | none => none
      | some (lo, chunk1) =>
        match chunk1 with
        | '-' :: chunk2 =>
          match getEsc chunk2 with
          | none => none
          | some (hi, chunk3) =>
            matchClassLoop fuel r (matched || (decide (lo ≤ r) && decide (r ≤ hi))) (nrange + 1) chunk3
        | _ =>
          matchClassLoop fuel r (matched || (decide (lo ≤ r) && decide (r ≤ lo))) (nrange + 1) chunk1

/-- Go's `matchChunk`: match the chunk against the start of `s`, returning
the unmatched tail of `s` on success. -/
def matchChunkGo : Nat → List Char → List Char → Option (List Char)
  | 0, _, _ => none
  | fuel+1, chunk, s =>
    match chunk with
    | [] => some s
    | '[' :: crest =>
      match s with
      | [] => none
      | r :: srest =>
        let neg : Bool × List Char :=
          match crest with
          | '^' :: c2 => (true, c2)
          | _ => (false, crest)
        match matchClassLoop (neg.2.length + 1) r false 0 neg.2 with
        | none => none
        | some (matched, crest2) =>
          if matched = neg.1 then none else matchChunkGo fuel crest2 srest
    | '?' :: crest =>
      match s with
      | [] => none
      | r :: srest => if r = '/' then none else matchChunkGo fuel crest srest
    | '\\' :: crest =>
      match crest with
      | [] => none
      | c :: crest1 =>
        match s with
        | [] => none
        | r :: srest => if r = c then matchChunkGo fuel crest1 srest else none
    | c :: crest =>
      match s with
      | [] => none
      | r :: srest => if r = c then matchChunkGo fuel crest srest else none

/-- `matchChunk` with enough fuel for its own chunk. -/
def matchChunk (chunk s : List Char) : Option (List Char) :=
  matchChunkGo (chunk.length + 1) chunk s

/-- The star loop of Go's `Match`: try the chunk at each later position of
`name`, not skipping past a separator.  Returns the tail to continue with
(`none` when every position fails). -/
def starLoop (chunk pattern : List Char) : List Char → Option (List Char)
  | [] => none
  | c :: rest =>
    if c = '/' then none
    else
      match matchChunk chunk rest with
      | some t =>
        if pattern.isEmpty && !t.isEmpty then starLoop chunk pattern rest else some t
      | none => starLoop chunk pattern rest

/-- The outer loop of Go's `Match`, fueled by the pattern length (each
iteration consumes at least one pattern character). -/
def matchFuel : Nat → List Char → List Char → Bool
  | 0, _, _ => false
  | fuel+1, pattern, name =>
    match pattern with
    | [] => name.isEmpty
    | _ :: _ =>
      let s := scanChunk pattern
      let star := s.1
      let chunk := s.2.1
      let rest := s.2.2
      if star && chunk.isEmpty then !(name.elem '/')
      else
        match matchChunk chunk name with
        | some t =>
          if t.isEmpty || !rest.isEmpty then matchFuel fuel rest t
          else if star then
            match starLoop chunk rest name with
            | some t2 => matchFuel fuel rest t2
            | none => false
          else false
        | none =>
          if star then
            match starLoop chunk rest name with
            | some t2 => matchFuel fuel rest t2
            | none => false
          else false

/-- Go's `path/filepath.Match` on Unix (errors collapsed to a failed
match; the program only uses well-formed patterns). -/
def filepathMatch (pattern name : String) : Bool :=
  matchFuel (pattern.length + 1) pattern.toList name.toList

/-! ## The extension normalizer

`adjustResourceFilenameExtension` from `src/fetch-forum-topic.go` lines
106-131 (identical in both programs of `src/unnamed/part_000`). -/

/-- `adjustResourceFilenameExtension(filename, contentType)`: append a
suffix inferred from the content type unless the filename already matches
the corresponding case-insensitive glob. -/
def adjustResourceFilenameExtension (filename contentType : String) : String :=
  if strHasGoPrefix contentType "text/html" || strHasGoPrefix contentType "application/xhtml+xml" then
    if !filepathMatch "*.[Hh][Tt][Mm][Ll]" filename && !filepathMatch "*.[Hh][Tt][Mm]" filename then
      filename ++ ".html"
    else filename
  else if strHasGoPrefix contentType "text/css" then
    if !filepathMatch "*.[Cc][Ss][Ss]" filename then filename ++ ".css" else filename
  else if strHasGoPrefix contentType "application/atom+xml" then
    if !filepathMatch "*.[Aa][Tt][Oo][Mm]" filename then filename ++ ".atom" else filename
  else if strHasGoPrefix contentType "application/rss+xml" then
    if !filepathMatch "*.[Rr][Ss][Ss]" filename then filename ++ ".rss" else filename
  else filename

example : filepathMatch "*.[Hh][Tt][Mm][Ll]" "b.html" = true := by decide

example : filepathMatch "*.[Hh][Tt][Mm][Ll]" "b.HTML" = true := by decide

example : filepathMatch "*.[Hh][Tt][Mm][Ll]" "a/b.html" = false := by decide

example : filepathMatch "*.[Cc][Ss][Ss]" ".css" = true := by decide

example : adjustResourceFilenameExtension "a/b" "text/css" = "a/b.css" := by decide

example : adjustResourceFilenameExtension "a/b.css" "text/css" = "a/b.css.css" := by decide

example : adjustResourceFilenameExtension "b.css" "text/css" = "b.css" := by decide

/-! ## Go `path/filepath` lexical path functions (Unix) -/

/-- Split a character list at every occurrence of `sep`
(Go `strings.Split`). -/
def splitOnChar (sep : Char) : List Char → List (List Char)
  | [] => [[]]
  | c :: rest =>
    let r := splitOnChar sep rest
    if c = sep then [] :: r
    else
      match r with
      | [] => [[c]]
      | h :: t => (c :: h) :: t

/-- One step of `Clean`'s element processing, on a reversed output stack:
skip empty and `.` elements, let `..` pop a non-`..` element (or vanish at
the root), push everything else. -/
def cleanStep (rooted : Bool) (stack : List (List Char)) (seg : List Char) : List (List Char) :=
  if seg.isEmpty || seg = ['.'] then stack
  else if seg = ['.', '.'] then
    match stack with
    | top :: rest => if top = ['.', '.'] then seg :: stack else rest
    | [] => if rooted then [] else [seg]
  else seg :: stack

/-- Go `path/filepath.Clean` on Unix (equivalently `path.Clean`): the
documented lexical simplification — drop `.` and empty elements, resolve
`..` against earlier elements, keep leading `..`s of relative paths, return
`.` for an empty result. -/
def pathClean (p : String) : String :=
  let l := p.toList
  if l.isEmpty then "."
  else
    let rooted := l.head? = some '/'
    let segs := splitOnChar '/' l
    let core := List.intercalate ['/'] (segs.foldl (cleanStep rooted) []).reverse
    if rooted then String.mk ('/' :: core)
    else if core.isEmpty then "."
    else String.mk core

/-- Go `path/filepath.Join` for two elements: empty elements are dropped,
the rest joined with `/` and cleaned. -/
def filepathJoin (a b : String) : String :=
  if a = "" ∧ b = "" then ""
  else if a = "" then pathClean b
  else if b = "" then pathClean a
  else pathClean (a ++ "/" ++ b)

/-- Go `path/filepath.FromSlash` (and `ToSlash`) on Unix: the identity. -/
def filepathFromSlash (s : String) : String := s

/-- Everything up to and including the last `/` (empty when there is
none); `base[:strings.LastIndex(base, "/")+1]`. -/
def lastSlashKeep (base : List Char) : List Char :=
  (base.reverse.dropWhile (· ≠ '/')).reverse

/-- Go `path/filepath.Dir` on Unix: the path up to the final element,
cleaned. -/
def filepathDir (p : String) : String :=
  pathClean (String.mk (lastSlashKeep p.toList))

/-- Drop the longest common prefix of two segment lists. -/
def dropCommon : List (List Char) → List (List Char) → List (List Char) × List (List Char)
  | b :: bs, t :: ts =>
    if b = t then dropCommon bs ts else (b :: bs, t :: ts)
  | bs, ts => (bs, ts)

/-- Go `path/filepath.Rel(basepath, targpath)` on Unix, at segment level:
clean both paths, require equal rootedness, position past the common
elements, fail when the remaining base starts with `..`, otherwise climb
with `..`s and descend into the target remainder.  `none` models the error
return. -/
def filepathRel (basepath targpath : String) : Option String :=
  let base := pathClean basepath
  let targ := pathClean targpath
  if targ = base then some "."
  else
    let base1 := if base = "." then "" else base
    if (strHasGoPrefix base1 "/" : Bool) ≠ (strHasGoPrefix targ "/" : Bool) then none
    else
      let bs := if base1 = "" then [] else if base1 = "/" then [([] : List Char)] else splitOnChar '/' base1.toList
      let ts := if targ = "" then [] else if targ = "/" then [([] : List Char)] else splitOnChar '/' targ.toList
      let p := dropCommon bs ts
      match p.1 with
      | [] => some (String.mk (List.intercalate ['/'] p.2))
      | b :: _ =>
        if b = ['.', '.'] then none
        else
          let ups : List (List Char) := List.replicate p.1.length ['.', '.']
          some (String.mk (List.intercalate ['/'] (ups ++ p.2)))

example : pathClean "/mirror/2/forum.example//topic.html" = "/mirror/2/forum.example/topic.html" := by decide

example : pathClean "a/b/../c/" = "a/c" := by decide

example : pathClean "" = "." := by decide

example : filepathJoin "/mirror" "2" = "/mirror/2" := by decide

example : filepathRel "/a" "/b/c" = some "../b/c" := by decide

example : filepathRel "/topic-dir" "/topic-dir/img/a.png" = some "img/a.png" := by decide

example : filepathRel "." "a/b" = some "a/b" := by decide

example : filepathRel ".." "a" = none := by decide

/-! ## Go `net/url` model

`GoURL` mirrors the fields of `url.URL` used by the program (no `User`,
no separate raw/escaped fields: the tool's inputs carry no percent-escapes,
so `setPath`/`EscapedPath` act as the identity here). -/

structure GoURL where
  scheme : String := ""
  opaquePart : String := ""
  host : String := ""
  path : String := ""
  rawQuery : String := ""
  fragment : String := ""
  forceQuery : Bool := false
deriving DecidableEq, Repr

/-- Go `net/url.resolvePath(base, ref)`: merge the reference onto the base
path and remove `.` / `..` segments, always producing an absolute path. -/
def resolvePath (base ref : String) : String :=
  let full :=
    if ref = "" then base
    else if ¬ strHasGoPrefix ref "/" then String.mk (lastSlashKeep base.toList) ++ ref
    else ref
  if full = "" then ""
  else
    let src := splitOnChar '/' full.toList
    let dst := src.foldl
      (fun dst e =>
        if e = ['.'] then dst
        else if e = ['.', '.'] then dst.dropLast
        else dst ++ [e])
      ([] : List (List Char))
    let dst :=
      match src.getLast? with
      | some e => if e = ['.'] || e = ['.', '.'] then dst ++ [([] : List Char)] else dst
      | none => dst
    let joined := List.intercalate ['/'] dst
    String.mk ('/' ::
      (match joined with
       | '/' :: rest => rest
       | l => l))

/-- First path segment contains a colon (the `./` special case of
`URL.String`). -/
def pathColonFirstSeg (p : String) : Bool :=
  containsSub [':'] (p.toList.takeWhile (· ≠ '/'))

/-- Go `url.URL.String()` (without user-info and percent-escaping). -/
def urlString (u : GoURL) : String :=
  let schemePart := if u.scheme ≠ "" then u.scheme ++ ":" else ""
  let core :=
    if u.opaquePart ≠ "" then u.opaquePart
    else
      let auth :=
        if u.scheme ≠ "" ∨ u.host ≠ "" then
          (if u.host ≠ "" ∨ u.path ≠ "" then "//" else "") ++ u.host
        else ""
      let slash := if u.path ≠ "" ∧ ¬ strHasGoPrefix u.path "/" ∧ u.host ≠ "" then "/" else ""
      let dotSlash :=
        if schemePart = "" ∧ auth = "" ∧ slash = "" ∧ pathColonFirstSeg u.path then "./" else ""
      auth ++ slash ++ dotSlash ++ u.path
  schemePart ++ core ++ (if u.forceQuery ∨ u.rawQuery ≠ "" then "?" ++ u.rawQuery else "")
    ++ (if u.fragment ≠ "" then "#" ++ u.fragment else "")

/-- Go `url.URL.ResolveReference(ref)`. -/
def resolveReference (u ref : GoURL) : GoURL :=
  let url0 := if ref.scheme = "" then { ref with scheme := u.scheme } else ref
  if ref.scheme ≠ "" ∨ ref.host ≠ "" then
    { url0 with path := resolvePath ref.path "" }
  else if ref.opaquePart ≠ "" then
    { url0 with host := "", path := "" }
  else
    let url1 :=
      if ref.path = "" ∧ ¬ ref.forceQuery ∧ ref.rawQuery = "" then
        { url0 with rawQuery := u.rawQuery,
                    fragment := if ref.fragment = "" then u.fragment else ref.fragment }
      else url0
    { url1 with host := u.host, path := resolvePath u.path ref.path }

/-- Split at the first occurrence of `c`; the second component is the part
after the separator, or `none` when `c` does not occur
(Go `strings.Cut`). -/
def cutChar : List Char → Char → List Char × Option (List Char)
  | [], _ => ([], none)
  | x :: rest, c =>
    if x = c then ([], some rest)
    else
      let r := cutChar rest c
      (x :: r.1, r.2)

def isAlphaChar (c : Char) : Bool := ('a' ≤ c && c ≤ 'z') || ('A' ≤ c && c ≤ 'Z')

def isDigitChar (c : Char) : Bool := '0' ≤ c && c ≤ '9'

/-- Go `net/url.getScheme`: scan for a scheme followed by `:`.  Returns
`(scheme, rest)`, with an empty scheme when the URL has none; `none`
models the `missing protocol scheme` error (a `:` as first character). -/
def getSchemeLoop : List Char → List Char → Option (String × String)
  | [], acc => some ("", String.mk acc.reverse)
  | c :: rest, acc =>
    if isAlphaChar c then getSchemeLoop rest (c :: acc)
    else if isDigitChar c || c = '+' || c = '-' || c = '.' then
      if acc.isEmpty then some ("", String.mk (c :: rest))
      else getSchemeLoop rest (c :: acc)
    else if c = ':' then
      if acc.isEmpty then none
      else some (String.mk acc.reverse, String.mk rest)
    else some ("", String.mk (acc.reverse ++ (c :: rest)))

def strToLower (s : String) : String := String.mk (s.toList.map Char.toLower)

/-- The scheme-less part of Go `net/url.parse` (with `viaRequest = false`),
after the fragment has been cut off: query split (incl. the `ForceQuery`
special case), the opaque case, the colon-in-first-segment error, the
authority, and the path. -/
def urlParseMain (l : List Char) : Option GoURL :=
  if l = ['*'] then some { path := "*" }
  else
    match getSchemeLoop l [] with
    | none => none
    | some (scheme0, restS) =>
      let scheme := strToLower scheme0
      let rest0 := restS.toList
      let split : Bool × String × List Char :=
        if rest0.getLast? = some '?' ∧ ¬ containsSub ['?'] rest0.dropLast then
          (true, "", rest0.dropLast)
        else
          let c := cutChar rest0 '?'
          (false, String.mk (c.2.getD []), c.1)
      let forceQuery := split.1
      let rawQuery := split.2.1
      let rest := split.2.2
      if ¬ strHasGoPrefix (String.mk rest) "/" then
        if scheme ≠ "" then
          some { scheme := scheme, opaquePart := String.mk rest,
                 rawQuery := rawQuery, forceQuery := forceQuery }
        else
          let seg := rest.takeWhile (· ≠ '/')
          if containsSub [':'] seg then none
          else
            some { scheme := scheme, path := String.mk rest,
                   rawQuery := rawQuery, forceQuery := forceQuery }
      else
        if (scheme ≠ "" ∨ ¬ strHasGoPrefix (String.mk rest) "///") ∧
            strHasGoPrefix (String.mk rest) "//" then
          let afterSlashes := rest.drop 2
          let a := afterSlashes.span (· ≠ '/')
          some { scheme := scheme, host := String.mk a.1, path := String.mk a.2,
                 rawQuery := rawQuery, forceQuery := forceQuery }
        else
          some { scheme := scheme, path := String.mk rest,
                 rawQuery := rawQuery, forceQuery := forceQuery }

/-- Go `net/url.Parse`: cut the fragment, parse the rest.  `none` models a
parse error. -/
def urlParse (raw : String) : Option GoURL :=
  let cut := cutChar raw.toList '#'
  match urlParseMain cut.1 with
  | none => none
  | some u => some { u with fragment := String.mk (cut.2.getD []) }

/-- Go `url.URL.Hostname()`: the host with a valid numeric port suffix
stripped (bracketed IPv6 hosts are never produced by the tool). -/
def hostnameOf (host : String) : String :=
  let r := host.toList.reverse.span (· ≠ ':')
  match r.2 with
  | [] => host
  | _ :: before =>
    if r.1.all isDigitChar then String.mk before.reverse else host

example : urlParse "http://forum.example/topic?start=15" =
    some { scheme := "http", host := "forum.example", path := "/topic", rawQuery := "start=15" } := by
  decide

example : urlParse ":" = none := by decide

example : urlParse "mailto:x@y" =
    some { scheme := "mailto", opaquePart := "x@y" } := by decide

example : urlParse "#frag" = some { fragment := "frag" } := by decide

example : urlParse "?q=1" = some { rawQuery := "q=1" } := by decide

example : urlParse "img/a.png" = some { path := "img/a.png" } := by decide

example : (urlParse "http://forum.example/topic").map (fun base =>
    urlString (resolveReference base { path := "img/a.png" })) =
    some "http://forum.example/img/a.png" := by decide

example : hostnameOf "forum.example" = "forum.example" := by decide

example : hostnameOf "forum.example:8080" = "forum.example" := by decide

example : urlString { path := "/topic", rawQuery := "start=15" } = "/topic?start=15" := by decide

/-! ## The page pipeline pieces (`fetch-forum-topic.go`)

`getLocalResourceRelativeReference`, the file path of
`writeResourceContentToFile` / `openFileForResourceContent`, and the page
URL derivation of `fetchForumTopicPage`. -/

/-- `getLocalResourceRelativeReference`: render the opaque/path/query part
of the URL and adjust the extension from the content type. -/
def getLocalResourceRelativeReference (uri : GoURL) (contentType : String) : String :=
  adjustResourceFilenameExtension
    (urlString { opaquePart := uri.opaquePart, path := uri.path, rawQuery := uri.rawQuery })
    contentType

/-- The local file name computed by `writeResourceContentToFile`
(equally `openFileForResourceContent`). -/
def resourceFilename (targetHostDir : String) (resourceURL : GoURL) (contentType : String) : String :=
  filepathJoin targetHostDir (filepathFromSlash (getLocalResourceRelativeReference resourceURL contentType))

/-- `fetchForumTopicPage` lines 204-205: request URL = template followed by
the post offset `step × (pageNumber − 1)`. -/
def pageURLString (urlTemplate : String) (step pageNumber : Nat) : String :=
  urlTemplate ++ toString (step * (pageNumber - 1))

/-- The full local path of the rewritten page file: parse the derived page
URL, build `<targetDir>/<pageNumber>/<hostname>` as `main` and
`fetchForumTopicPage` do, and place the page by
`writeResourceContentToFile`. -/
def localPageFilePath (targetDir urlTemplate : String) (step pageNumber : Nat)
    (contentType : String) : Option String :=
  (urlParse (pageURLString urlTemplate step pageNumber)).map fun pageURL =>
    let pageTargetDir := filepathJoin targetDir (toString pageNumber)
    let targetHostDir := filepathJoin pageTargetDir (hostnameOf pageURL.host)
    resourceFilename targetHostDir pageURL contentType

example : pageURLString "http://forum.example/topic?start=" 15 2 = "http://forum.example/topic?start=15" := by
  decide

example : localPageFilePath "/mirror" "http://forum.example/topic?start=" 15 2 "text/html" =
    some "/mirror/2/forum.example/topic?start=15.html" := by decide

/-! ## The attribute scan

The per-element attribute loop of `fetchRequisiteResourcesAndRewriteLinks`
(`src/fetch-forum-topic.go` lines 245-268; the same loop appears in both
programs of `src/unnamed/part_000`). -/

/-- The attribute atoms the scan's first `switch` distinguishes.  `zero`
is Go's zero `atom.Atom`: the initial value, which is also left unchanged
when a link attribute is matched by the string cases (`archive`,
`background`, ...). -/
inductive LinkAttrAtom
  | action | code | cite | data | formaction | href | icon | manifest | poster | src | srcset | usemap
  | zero
deriving DecidableEq, Repr

/-- Element atoms relevant to the navigational test (`token.DataAtom`);
every other element behaves like `other`. -/
inductive ElemAtom
  | a | area | embed | link | other
deriving DecidableEq, Repr

/-- How one attribute key is dispatched by the scan:
`atom.Lookup` + the two `switch` statements. -/
inductive AttrKeyClass
  | linkAtomKey (a : LinkAttrAtom)
  | relKey
  | linkStrKey
  | otherKey
deriving DecidableEq, Repr

/-- Dispatch of an attribute key (faithful to `atom.Lookup`: the twelve
link attributes and `rel` are table atoms; `archive`, `background`,
`codebase`, `classid`, `lowsrc`, `longdesc`, `profile` are not, and are
caught by the string `switch`). -/
def classifyAttrKey (k : String) : AttrKeyClass :=
  if k = "action" then .linkAtomKey .action
  else if k = "code" then .linkAtomKey .code
  else if k = "cite" then .linkAtomKey .cite
  else if k = "data" then .linkAtomKey .data
  else if k = "formaction" then .linkAtomKey .formaction
  else if k = "href" then .linkAtomKey .href
  else if k = "icon" then .linkAtomKey .icon
  else if k = "manifest" then .linkAtomKey .manifest
  else if k = "poster" then .linkAtomKey .poster
  else if k = "src" then .linkAtomKey .src
  else if k = "srcset" then .linkAtomKey .srcset
  else if k = "usemap" then .linkAtomKey .usemap
  else if k = "rel" then .relKey
  else if k = "archive" ∨ k = "background" ∨ k = "codebase" ∨ k = "classid" ∨
      k = "lowsrc" ∨ k = "longdesc" ∨ k = "profile" then .linkStrKey
  else .otherKey

/-- The scan's mutable locals. -/
structure ScanState where
  linkURIAttrAtom : LinkAttrAtom := .zero
  linkURIAttrIndex : Nat := 0
  linkURIStr : String := ""
  rel : String := ""
  hasLinkURIAttr : Bool := false
  hasRel : Bool := false
deriving DecidableEq, Repr

/-- Effect of one attribute on the scan state (the `switch` bodies).  Note
that the string cases leave `linkURIAttrAtom` unchanged. -/
def scanStep (st : ScanState) (index : Nat) (key val : String) : ScanState :=
  match classifyAttrKey key with
  | .linkAtomKey a =>
    { st with linkURIAttrAtom := a, linkURIAttrIndex := index,
              linkURIStr := val, hasLinkURIAttr := true }
  | .relKey => { st with rel := val, hasRel := true }
  | .linkStrKey =>
    { st with linkURIAttrIndex := index, linkURIStr := val, hasLinkURIAttr := true }
  | .otherKey => st

/-- The attribute loop: the `break` guard is evaluated at the top of every
iteration. -/
def scanAttrsGo : ScanState → Nat → List (String × String) → ScanState
  | st, _, [] => st
  | st, i, (k, v) :: rest =>
    if st.hasLinkURIAttr && st.hasRel then st
    else scanAttrsGo (scanStep st i k v) (i + 1) rest

/-- Scan an element's attribute list. -/
def scanAttrs (attrs : List (String × String)) : ScanState :=
  scanAttrsGo {} 0 attrs

/-! ## Navigational vs requisite classification

The condition of `src/fetch-forum-topic.go` line 281 (identical at
`src/unnamed/part_000` lines 279 and 964). -/

/-- `isRelInline` (line 280): the `rel` value mentions `stylesheet`,
`icon` or `shortcut`. -/
def isRelInline (rel : String) : Bool :=
  strContains rel "stylesheet" || strContains rel "icon" || strContains rel "shortcut"

/-- The code's requisite test, transcribed from the `if` condition of
line 281. -/
def isRequisiteLink (attr : LinkAttrAtom) (elem : ElemAtom) (hasRel : Bool) (rel : String) : Bool :=
  (attr != .action) && (attr != .formaction) &&
    ((attr != .href) ||
      ((elem != .a) && (elem != .area) && (elem != .embed) &&
        ((elem != .link) || (hasRel && isRelInline rel))))

/-- The navigational condition as the specification words it (claim C1):
the attribute is `action` or `formaction`, or it is `href` and the element
is `a`, `area` or `embed`, or is a `link` element whose `rel` contains none
of `stylesheet`, `icon`, `shortcut`. -/
def isNavigationalSpec (attr : LinkAttrAtom) (elem : ElemAtom) (rel : String) : Bool :=
  (attr == .action) || (attr == .formaction) ||
    ((attr == .href) &&
      ((elem == .a) || (elem == .area) || (elem == .embed) ||
        ((elem == .link) &&
          !(strContains rel "stylesheet" || strContains rel "icon" || strContains rel "shortcut"))))

/-! ## Per-link processing, tree variant

Lines 270-323 of `src/fetch-forum-topic.go`, for one element whose scan
found a link attribute with parsed URL `linkURI`.  A fetch oracle stands
for `getResource`: `some ct` is a successful GET with content type `ct`,
`none` any transport/status/write failure.  `fetched` records the URLs for
which a network GET was issued. -/

def FetchOracle := GoURL → Option String

structure LinkStepResult where
  newVal : Option String
  fetched : List GoURL
deriving DecidableEq, Repr

def treeLinkStep (pageURL : GoURL) (pageDirpath : String) (oracle : FetchOracle)
    (attr : LinkAttrAtom) (elem : ElemAtom) (hasRel : Bool) (rel : String)
    (linkURI : GoURL) : LinkStepResult :=
  if isRequisiteLink attr elem hasRel rel then
    if linkURI.opaquePart = "" then
      if linkURI.path ≠ "" then
        let resolved := resolveReference pageURL linkURI
        match oracle resolved with
        | none => { newVal := none, fetched := [resolved] }
        | some contentType =>
          match filepathRel pageDirpath (filepathFromSlash resolved.path) with
          | none => { newVal := none, fetched := [resolved] }
          | some relPath =>
            let rr := filepathFromSlash relPath
            let rr := if resolved.rawQuery ≠ "" then rr ++ "%3F" ++ resolved.rawQuery else rr
            { newVal := some (adjustResourceFilenameExtension rr contentType),
              fetched := [resolved] }
      else { newVal := none, fetched := [] }
    else
      match oracle linkURI with
      | none => { newVal := none, fetched := [linkURI] }
      | some contentType =>
        let rr := linkURI.opaquePart
        let rr := if linkURI.rawQuery ≠ "" then rr ++ "%3F" ++ linkURI.rawQuery else rr
        { newVal := some (adjustResourceFilenameExtension rr contentType),
          fetched := [linkURI] }
  else
    { newVal := some (urlString (resolveReference pageURL linkURI)), fetched := [] }

/-! ## Per-link processing, tokenizer variant

Lines 268-330 of the first program of `src/unnamed/part_000`: the same
logic guarded by `doesResourceHaveToBeFetched`, with the per-page
`fetchedResources` set (modelled as the list of URL strings marked so
far). -/

/-- `doesResourceHaveToBeFetched` (lines 222-225): not yet fetched, and on
the page's host. -/
def doesResourceHaveToBeFetched (fetchedResources : List String) (pageURL resourceURI : GoURL) : Bool :=
  !(fetchedResources.contains (urlString resourceURI)) && (resourceURI.host == pageURL.host)

structure TokLinkResult where
  newVal : Option String
  fetched : List GoURL
  fetchedSet : List String
deriving DecidableEq, Repr

def tokLinkStep (pageURL : GoURL) (pageDirpath : String) (fetchedResources : List String)
    (oracle : FetchOracle) (attr : LinkAttrAtom) (elem : ElemAtom) (hasRel : Bool)
    (rel : String) (linkURI : GoURL) : TokLinkResult :=
  if isRequisiteLink attr elem hasRel rel then
    if linkURI.opaquePart = "" then
      if linkURI.path ≠ "" then
        let resolved := resolveReference pageURL linkURI
        if ¬ doesResourceHaveToBeFetched fetchedResources pageURL resolved then
          { newVal := none, fetched := [], fetchedSet := fetchedResources }
        else
          match oracle resolved with
          | none => { newVal := none, fetched := [resolved], fetchedSet := fetchedResources }
          | some contentType =>
            match filepathRel pageDirpath (filepathFromSlash resolved.path) with
            | none => { newVal := none, fetched := [resolved], fetchedSet := fetchedResources }
            | some relPath =>
              let rr := filepathFromSlash relPath
              let rr := if resolved.rawQuery ≠ "" then rr ++ "%3F" ++ resolved.rawQuery else rr
              { newVal := some (adjustResourceFilenameExtension rr contentType),
                fetched := [resolved],
                fetchedSet := fetchedResources ++ [urlString resolved] }
      else
        -- `fetchedResources[linkURI.String()] = struct{}{}` (line 325) still runs:
        -- the empty-path link falls through the inner `if` to the marking statement.
        { newVal := none, fetched := [], fetchedSet := fetchedResources ++ [urlString linkURI] }
    else
      if ¬ doesResourceHaveToBeFetched fetchedResources pageURL linkURI then
        { newVal := none, fetched := [], fetchedSet := fetchedResources }
      else
        match oracle linkURI with
        | none => { newVal := none, fetched := [linkURI], fetchedSet := fetchedResources }
        | some contentType =>
          let rr := linkURI.opaquePart
          let rr := if linkURI.rawQuery ≠ "" then rr ++ "%3F" ++ linkURI.rawQuery else rr
          { newVal := some (adjustResourceFilenameExtension rr contentType),
            fetched := [linkURI],
            fetchedSet := fetchedResources ++ [urlString linkURI] }
  else
    { newVal := some (urlString (resolveReference pageURL linkURI)), fetched := [],
      fetchedSet := fetchedResources }

/-! ## Per-link processing, context variant

`fetchResourceFromLinkIfNecessary` (second program of
`src/unnamed/part_000`, lines 629-682).  The per-page `fetchedResources`
map from resolved URL string to content type is modelled as an association
list (insertion in front = map update, `List.lookup` = map read).  The
`replaceResourceReference` callback is modelled by the `replaced` field:
`some v` means the callback was invoked with `v` (the function returns
`true` exactly when it invokes the callback). -/

/-- The localized relative reference of the non-opaque branch:
`filepath.Rel` from the page directory, `%3F`-suffixed query, adjusted
extension.  `none` models the `filepath.Rel` error return. -/
def bRelativeReference (dirpath : String) (resolved : GoURL) (contentType : String) :
    Option String :=
  match filepathRel dirpath (filepathFromSlash resolved.path) with
  | none => none
  | some relPath =>
    let rr := filepathFromSlash relPath
    let rr := if resolved.rawQuery ≠ "" then rr ++ "%3F" ++ resolved.rawQuery else rr
    some (adjustResourceFilenameExtension rr contentType)

/-- The reference of the opaque branch: the opaque payload,
`%3F`-suffixed query, adjusted extension. -/
def bOpaqueReference (linkURI : GoURL) (contentType : String) : String :=
  let rr := linkURI.opaquePart
  let rr := if linkURI.rawQuery ≠ "" then rr ++ "%3F" ++ linkURI.rawQuery else rr
  adjustResourceFilenameExtension rr contentType

structure BResult where
  ok : Bool
  replaced : Option String
  fetched : List GoURL
  cache : List (String × String)
deriving DecidableEq, Repr

/-- `fetchResourceFromLinkIfNecessary(linkURI, context)`.  Note the two
cache tests are transcribed as written in the source: the non-opaque
branch fetches when the URL was **not** yet fetched, the opaque branch
fetches when it **was** (`if wasResourceFetched` without negation), using
the zero-value content type `""` otherwise. -/
def fetchResourceFromLinkIfNecessary (baseURL : GoURL) (dirpath : String)
    (cache : List (String × String)) (oracle : FetchOracle) (linkURI : GoURL) : BResult :=
  if linkURI.opaquePart = "" then
    if linkURI.path = "" then
      { ok := false, replaced := none, fetched := [], cache := cache }
    else
      let resolved := resolveReference baseURL linkURI
      match List.lookup (urlString resolved) cache with
      | some contentType =>
        match bRelativeReference dirpath resolved contentType with
        | none => { ok := false, replaced := none, fetched := [], cache := cache }
        | some rr => { ok := true, replaced := some rr, fetched := [], cache := cache }
      | none =>
        match oracle resolved with
        | none =>
          { ok := false, replaced := none, fetched := [resolved], cache := cache }
        | some contentType =>
          let cache1 := (urlString resolved, contentType) :: cache
          match bRelativeReference dirpath resolved contentType with
          | none => { ok := false, replaced := none, fetched := [resolved], cache := cache1 }
          | some rr => { ok := true, replaced := some rr, fetched := [resolved], cache := cache1 }
  else
    match List.lookup (urlString linkURI) cache with
    | some _ =>
      match oracle linkURI with
      | none => { ok := false, replaced := none, fetched := [linkURI], cache := cache }
      | some contentType =>
        { ok := true, replaced := some (bOpaqueReference linkURI contentType),
          fetched := [linkURI], cache := (urlString linkURI, contentType) :: cache }
    | none =>
      { ok := true, replaced := some (bOpaqueReference linkURI ""),
        fetched := [], cache := cache }

/-- Process a sequence of link occurrences of one page through
`fetchResourceFromLinkIfNecessary`, threading the cache and collecting the
URLs for which a network GET was issued, in order. -/
def bProcessLinks (baseURL : GoURL) (dirpath : String) (oracle : FetchOracle) :
    List (String × String) → List GoURL → List (String × String) × List GoURL
  | cache, [] => (cache, [])
  | cache, u :: rest =>
    let r := fetchResourceFromLinkIfNecessary baseURL dirpath cache oracle u
    let t := bProcessLinks baseURL dirpath oracle r.cache rest
    (t.1, r.fetched ++ t.2)

/-! ## The CSS link rewriter

`cssURLMatcher` and `fetchLinkedResourcesInCSS` (second program of
`src/unnamed/part_000`, lines 486 and 684-715). -/

/-- RE2 `\s`. -/
def isSpaceRE2 (c : Char) : Bool :=
  c = '\t' || c = '\n' || c = Char.ofNat 12 || c = '\r' || c = ' '

def isQuoteChar (c : Char) : Bool := c = '"' || c = Char.ofNat 39

/-- The lazy inner group `(.*?)` followed by `(["']\))`: scan to the
*first* position where a quote directly followed by `)` occurs; `.`
does not match a newline, so hitting one fails this start position. -/
def innerScan : List Char → Option (List Char × Char × List Char)
  | [] => none
  | c :: rest =>
    if isQuoteChar c ∧ rest.head? = some ')' then some ([], c, rest.drop 1)
    else if c = '\n' then none
    else
      match innerScan rest with
      | none => none
      | some (inner, q, rem) => some (c :: inner, q, rem)

/-- Try the whole regular expression `(url\s*\(["'])(.*?)(["']\))` at the
start of `s`, returning the three submatch groups and the remainder. -/
def cssMatchAt (s : List Char) : Option (List Char × List Char × List Char × List Char) :=
  match s with
  | c1 :: c2 :: c3 :: rest =>
    if c1 = 'u' ∧ c2 = 'r' ∧ c3 = 'l' then
      let w := rest.span isSpaceRE2
      match w.2 with
      | p :: q :: rest3 =>
        if p = '(' ∧ isQuoteChar q then
          match innerScan rest3 with
          | none => none
          | some (inner, q2, rem) =>
            some (c1 :: c2 :: c3 :: (w.1 ++ [p, q]), inner, [q2, ')'], rem)
        else none
      | _ => none
    else none
  | _ => none

/-- Go `regexp.FindSubmatchIndex` for `cssURLMatcher`, in split form:
the leftmost match, as `(pre, group1, group2, group3, remainder)` with
`css = pre ++ group1 ++ group2 ++ group3 ++ remainder`. -/
def findCSSURL : List Char → Option (List Char × List Char × List Char × List Char × List Char)
  | [] => none
  | c :: rest =>
    match cssMatchAt (c :: rest) with
    | some (g1, inner, g3, rem) => some ([], g1, inner, g3, rem)
    | none =>
      match findCSSURL rest with
      | some (pre, g1, inner, g3, rem) => some (c :: pre, g1, inner, g3, rem)
      | none => none

/-- `fetchLinkedResourcesInCSS(css, context)`: repeatedly take the next
`url(...)` occurrence; on a URL parse error copy everything through the end
of the match verbatim and continue after it; otherwise process the link,
substituting the replacement (when the callback fired) into the quoted
span.  Fueled; `none` is fuel exhaustion only. -/
def fetchLinkedResourcesInCSS (baseURL : GoURL) (dirpath : String) (oracle : FetchOracle) :
    Nat → List (String × String) → List Char → Option (List Char × List (String × String))
  | 0, _, _ => none
  | fuel+1, cache, css =>
    match findCSSURL css with
    | none => some (css, cache)
    | some (pre, g1, inner, g3, rem) =>
      match urlParse (String.mk inner) with
      | none =>
        match fetchLinkedResourcesInCSS baseURL dirpath oracle fuel cache rem with
        | none => none
        | some (out, cache2) => some (pre ++ g1 ++ inner ++ g3 ++ out, cache2)
      | some linkURI =>
        let r := fetchResourceFromLinkIfNecessary baseURL dirpath cache oracle linkURI
        let mid :=
          match r.replaced with
          | some reference => g1 ++ reference.toList ++ g3
          | none => g1 ++ inner ++ g3
        match fetchLinkedResourcesInCSS baseURL dirpath oracle fuel r.cache rem with
        | none => none
        | some (out, cache2) => some (pre ++ mid ++ out, cache2)

/-! ## The context variant with the recursive CSS fetch (full model)

The flat `fetchResourceFromLinkIfNecessary` above short-circuits the call
`getAndWriteResourceToFile(linkURI, ...)` into the content-type oracle.  In
the source (second program of `src/unnamed/part_000`, lines 717-756) that
call GETs the resource and, when the returned content type starts with
`text/css`, immediately runs `fetchLinkedResourcesInCSS` over the body with
a fresh context whose `baseURL` is the fetched resource's URL, whose
`dirpath` is `filepath.Dir(filepath.FromSlash(resourceURL.Path))` and whose
`fetchedResources` is the *same* per-page map — all of this before
`fetchResourceFromLinkIfNecessary` stores the key at line 647.  Here the
three mutually recursive functions are modelled together by one fueled
interpreter `bRec` over the call type `RecCall`.

The oracle now returns the content type *and* the body text (the body
matters only when the content type is a stylesheet; like `FetchOracle`,
`none` is a GET error).  `RecState` carries the shared cache and the
ordered log of GET requests issued; every entry of the log is a GET the
source really issues at that point.  When the fuel runs out the
interpreter stops without performing anything further, so the log it did
accumulate is a faithful prefix of the source's behaviour — on
cyclically-referencing stylesheets the source recursion is unbounded and
no finite fuel completes it. -/

def FetchOracle2 := GoURL → Option (String × List Char)

structure RecState where
  cache : List (String × String)
  log : List String
deriving DecidableEq, Repr

/-- Which of the three mutually recursive source functions is being run:
`fetchResourceFromLinkIfNecessary(u)` in a context with base URL `base`
and directory `dirpath`; `getAndWriteResourceToFile(u)`; or
`fetchLinkedResourcesInCSS(content)` in such a context. -/
inductive RecCall where
  | link (base : GoURL) (dirpath : String) (u : GoURL)
  | getWrite (u : GoURL)
  | css (base : GoURL) (dirpath : String) (content : List Char)

/-- Combined output record: a `.link` call fills `ok` (the return value)
and `replaced` (the `replaceResourceReference` argument, if invoked); a
`.getWrite` call fills `ct` (`none` = GET error); a `.css` call fills
`content` (the rewritten text); every call threads `st`. -/
structure RecOut where
  ok : Bool := false
  replaced : Option String := none
  ct : Option String := none
  content : List Char := []
  st : RecState
deriving DecidableEq, Repr

def bRec (oracle : FetchOracle2) : Nat → RecCall → RecState → RecOut
  | 0, .css _ _ content, st => { content := content, st := st }
  | 0, _, st => { st := st }
  | fuel+1, .link base dirpath linkURI, st =>
    if linkURI.opaquePart = "" then
      if linkURI.path = "" then { st := st }
      else
        let resolved := resolveReference base linkURI
        match List.lookup (urlString resolved) st.cache with
        | some contentType =>
          match bRelativeReference dirpath resolved contentType with
          | none => { st := st }
          | some rr => { ok := true, replaced := some rr, st := st }
        | none =>
          let g := bRec oracle fuel (.getWrite resolved) st
          match g.ct with
          | none => { st := g.st }
          | some contentType =>
            let st1 : RecState :=
              { g.st with cache := (urlString resolved, contentType) :: g.st.cache }
            match bRelativeReference dirpath resolved contentType with
            | none => { st := st1 }
            | some rr => { ok := true, replaced := some rr, st := st1 }
    else
      match List.lookup (urlString linkURI) st.cache with
      | some _ =>
        let g := bRec oracle fuel (.getWrite linkURI) st
        match g.ct with
        | none => { st := g.st }
        | some contentType =>
          { ok := true, replaced := some (bOpaqueReference linkURI contentType),
            st := { g.st with cache := (urlString linkURI, contentType) :: g.st.cache } }
      | none => { ok := true, replaced := some (bOpaqueReference linkURI ""), st := st }
  | fuel+1, .getWrite u, st =>
    let st1 : RecState := { st with log := st.log ++ [urlString u] }
    match oracle u with
    | none => { st := st1 }
    | some (contentType, body) =>
      if strHasGoPrefix contentType "text/css" then
        let r := bRec oracle fuel
          (.css u (filepathDir (filepathFromSlash u.path)) body) st1
        { ct := some contentType, st := r.st }
      else { ct := some contentType, st := st1 }
  | fuel+1, .css base dirpath css, st =>
    match findCSSURL css with
    | none => { content := css, st := st }
    | some (pre, g1, inner, g3, rem) =>
      match urlParse (String.mk inner) with
      | none =>
        let r := bRec oracle fuel (.css base dirpath rem) st
        { content := pre ++ g1 ++ inner ++ g3 ++ r.content, st := r.st }
      | some linkURI =>
        let l := bRec oracle fuel (.link base dirpath linkURI) st
        let mid :=
          match l.replaced with
          | some reference => g1 ++ reference.toList ++ g3
          | none => g1 ++ inner ++ g3
        let r := bRec oracle fuel (.css base dirpath rem) l.st
        { content := pre ++ mid ++ r.content, st := r.st }

/-- The html tokenizer loop of `fetchForumTopicPage` (second program):
each link occurrence of the page is handed to
`fetchResourceFromLinkIfNecessary` with the page's context, the cache and
log threading through.  All occurrences run with the same fuel. -/
def bProcessLinksRec (oracle : FetchOracle2) (base : GoURL) (dirpath : String)
    (fuel : Nat) : List GoURL → RecState → RecState
  | [], st => st
  | u :: rest, st =>
    bProcessLinksRec oracle base dirpath fuel rest
      (bRec oracle fuel (.link base dirpath u) st).st

/-- The content-type component of a full oracle (the flat model's view of
it). -/
def oracleCt (oracle : FetchOracle2) : FetchOracle := fun v => (oracle v).map Prod.fst

/-! ## The failure-ledger archive loop

`getFailedDownloads` (`src/fetch-forum-topic.go` lines 67-83; identical in
both programs of `src/unnamed/part_000`).  The loop

    i := 0
    archivedFailureListFilename := fmt.Sprintf("%s.%d", failureListFilename, i)
    for ; err == nil; _, err = os.Stat(archivedFailureListFilename) { i++ }

formats the archived filename once, with `i = 0`, and never recomputes it:
every `os.Stat` in the loop tests `failures.lst.0`.  `existsAt n` tells
whether `failures.lst.<n>` exists; `err` is nil on entry (the ledger was
just opened successfully). -/

def archiveIndexLoop (existsAt : Nat → Bool) : Nat → Nat → Bool → Option Nat
  | 0, _, _ => none
  | fuel+1, i, errNil =>
    if errNil then archiveIndexLoop existsAt fuel (i + 1) (existsAt 0)
    else some i

/-- The index `N` such that the ledger is renamed to `failures.lst.<N>`,
or `none` when the given fuel does not suffice (the loop runs forever). -/
def archiveTargetIndex (existsAt : Nat → Bool) (fuel : Nat) : Option Nat :=
  archiveIndexLoop existsAt fuel 0 true

example : archiveTargetIndex (fun _ => false) 5 = some 1 := by decide

example : fetchResourceFromLinkIfNecessary { scheme := "http", host := "h.example", path := "/p/x" }
    "/p" [] (fun _ => some "text/css") { path := "c.css" } =
    { ok := true, replaced := some "c.css", fetched := [{ scheme := "http", host := "h.example", path := "/p/c.css" }],
      cache := [("http://h.example/p/c.css", "text/css")] } := by decide

/-- A key the scan treats as a candidate link attribute (atom or string
case). -/
def isCandidateKey (k : String) : Bool :=
  match classifyAttrKey k with
  | .linkAtomKey _ => true
  | .linkStrKey => true
  | _ => false

/-- A URL-string with the shape `urlString` gives every *resolved,
non-opaque* URL: a scheme, a colon, then a part that is empty or starts
with `/`, `?` or `#`.  Strings of opaque parsed URLs never have this
shape, which keeps the two cache branches of
`fetchResourceFromLinkIfNecessary` on disjoint key sets. -/
def resolvedKeyStr (s : String) : Bool :=
  match cutChar s.toList ':' with
  | (_, some rest) =>
    rest.isEmpty || decide (rest.head? = some '/') || decide (rest.head? = some '?') ||
      decide (rest.head? = some '#')
  | (_, none) => false

/-- Well-formedness of a parsed link occurrence, as `url.Parse`
guarantees: the scheme contains no colon, and a nonempty opaque part
comes with a scheme and never starts with `/`, `?` or `#` (`Parse`
strips query and fragment before assigning `Opaque`, and assigns it only
when the rest does not start with `/`). -/
def wfOcc (u : GoURL) : Prop :=
  strContains u.scheme ":" = false ∧
  (u.opaquePart ≠ "" →
    u.scheme ≠ "" ∧ u.opaquePart.toList.head? ≠ some '/' ∧
    u.opaquePart.toList.head? ≠ some '?' ∧ u.opaquePart.toList.head? ≠ some '#')

instance (u : GoURL) : Decidable (wfOcc u) := by
  unfold wfOcc; infer_instance

/-- Occurrences of a string in a list. -/
def countOccur (s : String) : List String → Nat
  | [] => 0
  | x :: rest => (if x = s then 1 else 0) + countOccur s rest

/-! ## Theorems -/

/-- C4: the claim says the ledger is renamed to `failures.lst.<N>` for the
*smallest* free `N`, never overwriting, and that the search terminates.
The loop never recomputes the statted filename, so the code diverges from
this (and from its own usage text, which promises failed pages are
re-attempted): with no archive present it picks `N = 1` although `N = 0`
is free; with only `failures.lst.1` present it also picks `N = 1`,
renaming onto the existing archive; and whenever `failures.lst.0` exists
the loop never terminates. -/
theorem c4_archiveLoopBroken :
    (∀ fuel, archiveTargetIndex (fun n => n == 0) fuel = none) ∧
    archiveTargetIndex (fun _ => false) 5 = some 1 ∧
    archiveTargetIndex (fun n => n == 1) 5 = some 1 := by
  refine ⟨?_, by decide, by decide⟩
  have h : ∀ fuel i, archiveIndexLoop (fun n => n == 0) fuel i true = none := by
    intro fuel
    induction fuel with
    | zero => intro i; rfl
    | succ f ih => intro i; simpa [archiveIndexLoop] using ih (i + 1)
  exact fun fuel => h fuel 0

/-- C6 (counterexample): for template `http://forum.example/topic?start=`,
step 15, page 2, target directory `/mirror` and content type `text/html`,
the page file is *not* written to `<targetDir>/2/forum.example/topic.html`
as claimed: the query string stays in the filename. -/
theorem c6_pagePathCounterexample :
    localPageFilePath "/mirror" "http://forum.example/topic?start=" 15 2 "text/html" ≠
      some "/mirror/2/forum.example/topic.html" := by decide

/-- C6 (amended): the derived request URL is
`http://forum.example/topic?start=15` as claimed, but the local page file
path is `<targetDir>/2/forum.example/topic?start=15.html`: the raw query
is rendered into the relative reference, and the `.html` suffix is always
appended because the glob `*.[Hh][Tt][Mm][Ll]` never matches a name
containing `/`. -/
theorem c6_pagePathAmended :
    pageURLString "http://forum.example/topic?start=" 15 2 =
      "http://forum.example/topic?start=15" ∧
    localPageFilePath "/mirror" "http://forum.example/topic?start=" 15 2 "text/html" =
      some "/mirror/2/forum.example/topic?start=15.html" :=
  ⟨by decide, by decide⟩

/-! ### The glob matcher on appended extensions (for C5) -/

theorem strToList_append (s t : String) : (s ++ t).toList = s.toList ++ t.toList := by
  cases s; cases t; rfl

theorem strAppend_mk (s t : String) : s ++ t = String.mk (s.toList ++ t.toList) := by
  cases s; cases t; rfl

theorem starLoop_some_eq_nil (ch : List Char) :
    ∀ name t : List Char, starLoop ch [] name = some t → t = [] := by
  intro name
  induction name with
  | nil => intro t h; exact absurd h (by simp [starLoop])
  | cons c rest ih =>
    intro t h
    rw [starLoop] at h
    by_cases hc : c = '/'
    · rw [if_pos hc] at h; exact absurd h (by simp)
    · rw [if_neg hc] at h
      cases hmc : matchChunk ch rest with
      | none => rw [hmc] at h; exact ih t h
      | some t0 =>
        rw [hmc] at h
        cases t0 with
        | nil => simp at h; exact h
        | cons d t1 => simp at h; exact ih t h

theorem starLoop_isSome_cons (ch : List Char) (c : Char) (name : List Char) :
    (starLoop ch [] (c :: name)).isSome =
      ((!decide (c = '/')) &&
        (decide (matchChunk ch name = some []) || (starLoop ch [] name).isSome)) := by
  rw [starLoop]
  by_cases hc : c = '/'
  · simp [hc]
  · rw [if_neg hc]
    cases hmc : matchChunk ch name with
    | none => simp [hc, hmc]
    | some t0 =>
      cases t0 with
      | nil => simp [hc, hmc]
      | cons d t1 => simp [hc, hmc]

theorem matchFuel_nil_nil (n : Nat) : matchFuel (n + 1) [] [] = true := rfl

theorem matchTop_eq (n : Nat) (p ch : List Char)
    (hscan : scanChunk p = (true, ch, [])) (hp : p ≠ []) (hch : ch ≠ []) (name : List Char) :
    matchFuel (n + 2) p name =
      (decide (matchChunk ch name = some []) || (starLoop ch [] name).isSome) := by
  obtain ⟨c, rest, rfl⟩ : ∃ c rest, p = c :: rest := by
    cases p with
    | nil => exact absurd rfl hp
    | cons c rest => exact ⟨c, rest, rfl⟩
  have hche : ch.isEmpty = false := by
    cases ch with
    | nil => exact absurd rfl hch
    | cons a b => rfl
  rw [show n + 2 = (n + 1) + 1 from rfl, matchFuel]
  simp only [hscan, hche, Bool.true_and, Bool.and_false, if_false]
  cases hmc : matchChunk ch name with
  | some t =>
    cases t with
    | nil => simp [hmc, matchFuel_nil_nil]
    | cons d t1 =>
      cases hsl : starLoop ch [] name with
      | none => simp [hmc, hsl]
      | some t2 =>
        have ht2 : t2 = [] := starLoop_some_eq_nil ch name t2 hsl
        subst ht2
        simp [hmc, hsl, matchFuel_nil_nil]
  | none =>
    cases hsl : starLoop ch [] name with
    | none => simp [hmc, hsl]
    | some t2 =>
      have ht2 : t2 = [] := starLoop_some_eq_nil ch name t2 hsl
      subst ht2
      simp [hmc, hsl, matchFuel_nil_nil]

theorem matchTop_append (n : Nat) (p ch ext : List Char)
    (hscan : scanChunk p = (true, ch, [])) (hp : p ≠ []) (hch : ch ≠ [])
    (hext : matchChunk ch ext = some []) :
    ∀ l : List Char, (∀ c ∈ l, c ≠ '/') → matchFuel (n + 2) p (l ++ ext) = true := by
  intro l
  induction l with
  | nil =>
    intro _
    rw [List.nil_append, matchTop_eq n p ch hscan hp hch]
    simp [hext]
  | cons c l ih =>
    intro h
    have hc : c ≠ '/' := h c (by simp)
    have hl : ∀ x ∈ l, x ≠ '/' := fun x hx => h x (by simp [hx])
    have hprev := ih hl
    rw [matchTop_eq n p ch hscan hp hch] at hprev
    rw [List.cons_append, matchTop_eq n p ch hscan hp hch, starLoop_isSome_cons]
    simp [hc, hprev]

theorem adjustMatch_html (l : List Char) (h : ∀ c ∈ l, c ≠ '/') :
    filepathMatch "*.[Hh][Tt][Mm][Ll]" (String.mk (l ++ ".html".toList)) = true := by
  unfold filepathMatch
  exact matchTop_append 17 "*.[Hh][Tt][Mm][Ll]".toList ".[Hh][Tt][Mm][Ll]".toList
    ".html".toList (by decide) (by decide) (by decide) (by decide) l h

theorem adjustMatch_css (l : List Char) (h : ∀ c ∈ l, c ≠ '/') :
    filepathMatch "*.[Cc][Ss][Ss]" (String.mk (l ++ ".css".toList)) = true := by
  unfold filepathMatch
  exact matchTop_append 13 "*.[Cc][Ss][Ss]".toList ".[Cc][Ss][Ss]".toList
    ".css".toList (by decide) (by decide) (by decide) (by decide) l h

theorem adjustMatch_atom (l : List Char) (h : ∀ c ∈ l, c ≠ '/') :
    filepathMatch "*.[Aa][Tt][Oo][Mm]" (String.mk (l ++ ".atom".toList)) = true := by
  unfold filepathMatch
  exact matchTop_append 17 "*.[Aa][Tt][Oo][Mm]".toList ".[Aa][Tt][Oo][Mm]".toList
    ".atom".toList (by decide) (by decide) (by decide) (by decide) l h

theorem adjustMatch_rss (l : List Char) (h : ∀ c ∈ l, c ≠ '/') :
    filepathMatch "*.[Rr][Ss][Ss]" (String.mk (l ++ ".rss".toList)) = true := by
  unfold filepathMatch
  exact matchTop_append 13 "*.[Rr][Ss][Ss]".toList ".[Rr][Ss][Ss]".toList
    ".rss".toList (by decide) (by decide) (by decide) (by decide) l h

/-- C5 (counterexample): the extension normalizer is not idempotent.  For
`f = "a/b"` and `ct = "text/css"` one application yields `a/b.css`, a
second yields `a/b.css.css`, because the glob `*.[Cc][Ss][Ss]` can never
match a name containing a path separator (`*` matches only non-separator
characters). -/
theorem c5_notIdem :
    adjustResourceFilenameExtension (adjustResourceFilenameExtension "a/b" "text/css") "text/css" ≠
      adjustResourceFilenameExtension "a/b" "text/css" := by decide

/-- C5 (amended): the extension normalizer is idempotent for every
content type on filenames that contain no `/`; with a separator present
the recognized-extension globs never match and every application appends
another suffix. -/
theorem c5_adjustIdem (f ct : String) (h : ∀ c ∈ f.toList, c ≠ '/') :
    adjustResourceFilenameExtension (adjustResourceFilenameExtension f ct) ct =
      adjustResourceFilenameExtension f ct := by
  by_cases h1 : (strHasGoPrefix ct "text/html" || strHasGoPrefix ct "application/xhtml+xml") = true
  · by_cases hm : (!filepathMatch "*.[Hh][Tt][Mm][Ll]" f && !filepathMatch "*.[Hh][Tt][Mm]" f) = true
    · have hres : adjustResourceFilenameExtension f ct = f ++ ".html" := by
        unfold adjustResourceFilenameExtension
        rw [if_pos h1, if_pos hm]
      rw [hres]
      have hmatch : filepathMatch "*.[Hh][Tt][Mm][Ll]" (f ++ ".html") = true := by
        rw [strAppend_mk]; exact adjustMatch_html f.toList h
      unfold adjustResourceFilenameExtension
      rw [if_pos h1, if_neg (by simp [hmatch])]
    · have hres : adjustResourceFilenameExtension f ct = f := by
        unfold adjustResourceFilenameExtension
        rw [if_pos h1, if_neg hm]
      rw [hres]
      exact hres
  · by_cases h2 : strHasGoPrefix ct "text/css" = true
    · by_cases hm : (!filepathMatch "*.[Cc][Ss][Ss]" f) = true
      · have hres : adjustResourceFilenameExtension f ct = f ++ ".css" := by
          unfold adjustResourceFilenameExtension
          rw [if_neg h1, if_pos h2, if_pos hm]
        rw [hres]
        have hmatch : filepathMatch "*.[Cc][Ss][Ss]" (f ++ ".css") = true := by
          rw [strAppend_mk]; exact adjustMatch_css f.toList h
        unfold adjustResourceFilenameExtension
        rw [if_neg h1, if_pos h2, if_neg (by simp [hmatch])]
      · have hres : adjustResourceFilenameExtension f ct = f := by
          unfold adjustResourceFilenameExtension
          rw [if_neg h1, if_pos h2, if_neg hm]
        rw [hres]
        exact hres
    · by_cases h3 : strHasGoPrefix ct "application/atom+xml" = true
      · by_cases hm : (!filepathMatch "*.[Aa][Tt][Oo][Mm]" f) = true
        · have hres : adjustResourceFilenameExtension f ct = f ++ ".atom" := by
            unfold adjustResourceFilenameExtension
            rw [if_neg h1, if_neg h2, if_pos h3, if_pos hm]
          rw [hres]
          have hmatch : filepathMatch "*.[Aa][Tt][Oo][Mm]" (f ++ ".atom") = true := by
            rw [strAppend_mk]; exact adjustMatch_atom f.toList h
          unfold adjustResourceFilenameExtension
          rw [if_neg h1, if_neg h2, if_pos h3, if_neg (by simp [hmatch])]
        · have hres : adjustResourceFilenameExtension f ct = f := by
            unfold adjustResourceFilenameExtension
            rw [if_neg h1, if_neg h2, if_pos h3, if_neg hm]
          rw [hres]
          exact hres
      · by_cases h4 : strHasGoPrefix ct "application/rss+xml" = true
        · by_cases hm : (!filepathMatch "*.[Rr][Ss][Ss]" f) = true
          · have hres : adjustResourceFilenameExtension f ct = f ++ ".rss" := by
              unfold adjustResourceFilenameExtension
              rw [if_neg h1, if_neg h2, if_neg h3, if_pos h4, if_pos hm]
            rw [hres]
            have hmatch : filepathMatch "*.[Rr][Ss][Ss]" (f ++ ".rss") = true := by
              rw [strAppend_mk]; exact adjustMatch_rss f.toList h
            unfold adjustResourceFilenameExtension
            rw [if_neg h1, if_neg h2, if_neg h3, if_pos h4, if_neg (by simp [hmatch])]
          · have hres : adjustResourceFilenameExtension f ct = f := by
              unfold adjustResourceFilenameExtension
              rw [if_neg h1, if_neg h2, if_neg h3, if_pos h4, if_neg hm]
            rw [hres]
            exact hres
        · have hres : adjustResourceFilenameExtension f ct = f := by
            unfold adjustResourceFilenameExtension
            rw [if_neg h1, if_neg h2, if_neg h3, if_neg h4]
          rw [hres]
          exact hres

/-- C5 (witness): idempotence at the concrete separator-free filename
`b` with content type `text/css`. -/
theorem c5_adjustIdem_w :
    adjustResourceFilenameExtension (adjustResourceFilenameExtension "b" "text/css") "text/css" =
      adjustResourceFilenameExtension "b" "text/css" :=
  c5_adjustIdem "b" "text/css" (by decide)

/-- C1: for an element carrying a candidate link attribute, the link is
treated as navigational — attribute value rewritten to the fully resolved
absolute URL (resolved against the page URL), resource never fetched —
exactly when the attribute is `action`/`formaction`, or it is `href` and
the element is `a`/`area`/`embed`, or the element is `link` and its `rel`
contains none of `stylesheet`/`icon`/`shortcut`.  The scan invariant
`hasRel = false → rel = ""` holds for every element (both variables start
out zero-valued and are only set together). -/
theorem c1_navigationalExactlyWhen (attr : LinkAttrAtom) (elem : ElemAtom) (hasRel : Bool)
    (rel : String) (hwf : hasRel = false → rel = "")
    (pageURL : GoURL) (pageDirpath : String) (oracle : FetchOracle) (linkURI : GoURL) :
    ((!isRequisiteLink attr elem hasRel rel) = isNavigationalSpec attr elem rel) ∧
    (isRequisiteLink attr elem hasRel rel = false →
      treeLinkStep pageURL pageDirpath oracle attr elem hasRel rel linkURI =
        { newVal := some (urlString (resolveReference pageURL linkURI)), fetched := [] }) := by
  constructor
  · unfold isRequisiteLink isNavigationalSpec
    rw [show (strContains rel "stylesheet" || strContains rel "icon" || strContains rel "shortcut") =
      isRelInline rel from rfl]
    cases hasRel with
    | false =>
      have h0 : rel = "" := hwf rfl
      subst h0
      cases attr <;> cases elem <;> decide
    | true =>
      cases hI : isRelInline rel <;> cases attr <;> cases elem <;> decide
  · intro hreq
    unfold treeLinkStep
    rw [if_neg (by simp [hreq])]

/-- C1 (witness): the classification and the navigational rewrite at the
concrete input `<a href="img/x">` on page `http://forum.example/topic`. -/
theorem c1_navigationalExactlyWhen_w :
    ((!isRequisiteLink .href .a false "") = isNavigationalSpec .href .a "") ∧
    (isRequisiteLink .href .a false "" = false →
      treeLinkStep { scheme := "http", host := "forum.example", path := "/topic" } "/"
          (fun _ => some "text/html") .href .a false "" { path := "img/x" } =
        { newVal := some (urlString (resolveReference
            { scheme := "http", host := "forum.example", path := "/topic" } { path := "img/x" })),
          fetched := [] }) :=
  c1_navigationalExactlyWhen .href .a false "" (fun _ => rfl)
    { scheme := "http", host := "forum.example", path := "/topic" } "/"
    (fun _ => some "text/html") { path := "img/x" }

/-- C7 (counterexample): for an element with attributes
`href="a" src="b"` (two candidate link attributes, no `rel`), the scan
uses the *second* candidate (`src`, index 1, value `b`), not the first as
claimed — each candidate overwrites the previous one, and the loop's
both-found check cannot stop it because no `rel` was seen. -/
theorem c7_lastCandidateWins :
    (scanAttrs [("href", "a"), ("src", "b")]).linkURIStr = "b" ∧
    (scanAttrs [("href", "a"), ("src", "b")]).linkURIAttrIndex = 1 ∧
    (scanAttrs [("href", "a"), ("src", "b")]).linkURIStr ≠ "a" := by decide

theorem scanAttrsGo_stop (st : ScanState) (i : Nat) (l : List (String × String))
    (h1 : st.hasLinkURIAttr = true) (h2 : st.hasRel = true) :
    scanAttrsGo st i l = st := by
  cases l with
  | nil => rfl
  | cons p rest =>
    obtain ⟨k, v⟩ := p
    simp [scanAttrsGo, h1, h2]

theorem scanAttrsGo_append_stop :
    ∀ (l : List (String × String)) (st : ScanState) (i : Nat) (extra : List (String × String)),
      (scanAttrsGo st i l).hasLinkURIAttr = true → (scanAttrsGo st i l).hasRel = true →
      scanAttrsGo st i (l ++ extra) = scanAttrsGo st i l := by
  intro l
  induction l with
  | nil =>
    intro st i extra h1 h2
    simpa using scanAttrsGo_stop st i extra h1 h2
  | cons p rest ih =>
    intro st i extra h1 h2
    obtain ⟨k, v⟩ := p
    by_cases hb : (st.hasLinkURIAttr && st.hasRel) = true
    · simp only [List.cons_append, scanAttrsGo, hb, if_true]
    · simp only [scanAttrsGo, hb, if_false] at h1 h2
      simp only [List.cons_append, scanAttrsGo, hb, if_false]
      exact ih _ _ extra h1 h2

theorem scanStep_candidate_rel (st : ScanState) (i : Nat) (k v : String)
    (hk : isCandidateKey k = true) : (scanStep st i k v).hasRel = st.hasRel := by
  unfold isCandidateKey at hk
  unfold scanStep
  cases hck : classifyAttrKey k <;> rw [hck] at hk <;> simp_all

theorem scanStep_candidate_str (st : ScanState) (i : Nat) (k v : String)
    (hk : isCandidateKey k = true) : (scanStep st i k v).linkURIStr = v := by
  unfold isCandidateKey at hk
  unfold scanStep
  cases hck : classifyAttrKey k <;> rw [hck] at hk <;> simp_all

theorem scanAttrsGo_last_candidate :
    ∀ (l : List (String × String)) (st : ScanState) (i : Nat) (k v : String),
      st.hasRel = false → (∀ p ∈ l, isCandidateKey p.1 = true) → isCandidateKey k = true →
      (scanAttrsGo st i (l ++ [(k, v)])).linkURIStr = v := by
  intro l
  induction l with
  | nil =>
    intro st i k v hrel hall hk
    simp only [List.nil_append, scanAttrsGo, hrel, Bool.and_false, if_false]
    exact scanStep_candidate_str st i k v hk
  | cons p rest ih =>
    intro st i k v hrel hall hk
    obtain ⟨k0, v0⟩ := p
    have hk0 : isCandidateKey k0 = true := hall (k0, v0) (by simp)
    have hrest : ∀ p ∈ rest, isCandidateKey p.1 = true := fun p hp => hall p (by simp [hp])
    simp only [List.cons_append, scanAttrsGo, hrel, Bool.and_false, if_false]
    exact ih (scanStep st i k0 v0) (i + 1) k v
      (by rw [scanStep_candidate_rel st i k0 v0 hk0]; exact hrel) hrest hk

/-- C7 (amended): the scan's early stop is real — once a state with both a
candidate link attribute and a `rel` has been reached, later attributes
cannot change the result — but within the scanned region each new
candidate link attribute (and each new `rel`) *overwrites* the previous
one, so among several candidate link attributes before any `rel` the
*last* one wins, not the first. -/
theorem c7_scanAmended :
    (∀ (attrs extra : List (String × String)),
      (scanAttrs attrs).hasLinkURIAttr = true → (scanAttrs attrs).hasRel = true →
      scanAttrs (attrs ++ extra) = scanAttrs attrs) ∧
    (∀ (attrs : List (String × String)) (k v : String),
      (∀ p ∈ attrs, isCandidateKey p.1 = true) → isCandidateKey k = true →
      (scanAttrs (attrs ++ [(k, v)])).linkURIStr = v) := by
  constructor
  · intro attrs extra h1 h2
    exact scanAttrsGo_append_stop attrs {} 0 extra h1 h2
  · intro attrs k v hall hk
    exact scanAttrsGo_last_candidate attrs {} 0 k v rfl hall hk

/-- C7 (witness): the amended scan facts at concrete attribute lists —
`href` + `rel` stops before a later `src`; `href` then `src` yields
`src`'s value. -/
theorem c7_scanAmended_w :
    scanAttrs ([("href", "a"), ("rel", "x")] ++ [("src", "b")]) =
      scanAttrs [("href", "a"), ("rel", "x")] ∧
    (scanAttrs ([("href", "a")] ++ [("src", "b")])).linkURIStr = "b" :=
  ⟨c7_scanAmended.1 [("href", "a"), ("rel", "x")] [("src", "b")] (by decide) (by decide),
   c7_scanAmended.2 [("href", "a")] "src" "b" (by decide) (by decide)⟩

theorem tokLinkStep_gate_skip (pageURL : GoURL) (pageDirpath : String)
    (fetchedResources : List String) (oracle : FetchOracle) (attr : LinkAttrAtom)
    (elem : ElemAtom) (hasRel : Bool) (rel : String) (linkURI : GoURL)
    (hreq : isRequisiteLink attr elem hasRel rel = true) (hop : linkURI.opaquePart = "")
    (hpath : linkURI.path ≠ "")
    (hg : ¬ doesResourceHaveToBeFetched fetchedResources pageURL
        (resolveReference pageURL linkURI) = true) :
    tokLinkStep pageURL pageDirpath fetchedResources oracle attr elem hasRel rel linkURI =
      { newVal := none, fetched := [], fetchedSet := fetchedResources } := by
  unfold tokLinkStep
  rw [if_pos hreq, if_pos hop, if_pos hpath, if_pos hg]

theorem tokLinkStep_gateSkipOpq (pageURL : GoURL) (pageDirpath : String)
    (fetchedResources : List String) (oracle : FetchOracle) (attr : LinkAttrAtom)
    (elem : ElemAtom) (hasRel : Bool) (rel : String) (linkURI : GoURL)
    (hreq : isRequisiteLink attr elem hasRel rel = true) (hop : linkURI.opaquePart ≠ "")
    (hg : ¬ doesResourceHaveToBeFetched fetchedResources pageURL linkURI = true) :
    tokLinkStep pageURL pageDirpath fetchedResources oracle attr elem hasRel rel linkURI =
      { newVal := none, fetched := [], fetchedSet := fetchedResources } := by
  unfold tokLinkStep
  rw [if_pos hreq, if_neg hop, if_pos hg]

theorem tokLinkStep_fetched_host (pageURL : GoURL) (pageDirpath : String)
    (fetchedResources : List String) (oracle : FetchOracle) (attr : LinkAttrAtom)
    (elem : ElemAtom) (hasRel : Bool) (rel : String) (linkURI : GoURL) :
    ∀ u ∈ (tokLinkStep pageURL pageDirpath fetchedResources oracle attr elem hasRel rel
        linkURI).fetched, u.host = pageURL.host := by
  intro u hu
  by_cases hreq : isRequisiteLink attr elem hasRel rel = true
  · by_cases hop : linkURI.opaquePart = ""
    · by_cases hpath : linkURI.path = ""
      · unfold tokLinkStep at hu
        rw [if_pos hreq, if_pos hop, if_neg (by simp [hpath])] at hu
        simp at hu
      · by_cases hg : doesResourceHaveToBeFetched fetchedResources pageURL
            (resolveReference pageURL linkURI) = true
        · have hhost : (resolveReference pageURL linkURI).host = pageURL.host := by
            unfold doesResourceHaveToBeFetched at hg
            simp only [Bool.and_eq_true, beq_iff_eq] at hg
            exact hg.2
          unfold tokLinkStep at hu
          rw [if_pos hreq, if_pos hop, if_pos hpath, if_neg (by simp [hg])] at hu
          cases ho : oracle (resolveReference pageURL linkURI) with
          | none =>
            rw [ho] at hu
            simp at hu
            subst hu
            exact hhost
          | some ct =>
            rw [ho] at hu
            cases hr : filepathRel pageDirpath
                (filepathFromSlash (resolveReference pageURL linkURI).path) with
            | none => rw [hr] at hu; simp at hu; subst hu; exact hhost
            | some rp => rw [hr] at hu; simp at hu; subst hu; exact hhost
        · rw [tokLinkStep_gate_skip pageURL pageDirpath fetchedResources oracle attr elem
            hasRel rel linkURI hreq hop hpath hg] at hu
          simp at hu
    · by_cases hg : doesResourceHaveToBeFetched fetchedResources pageURL linkURI = true
      · have hhost : linkURI.host = pageURL.host := by
          unfold doesResourceHaveToBeFetched at hg
          simp only [Bool.and_eq_true, beq_iff_eq] at hg
          exact hg.2
        unfold tokLinkStep at hu
        rw [if_pos hreq, if_neg hop, if_neg (by simp [hg])] at hu
        cases ho : oracle linkURI with
        | none => rw [ho] at hu; simp at hu; subst hu; exact hhost
        | some ct => rw [ho] at hu; simp at hu; subst hu; exact hhost
      · rw [tokLinkStep_gateSkipOpq pageURL pageDirpath fetchedResources oracle attr elem
          hasRel rel linkURI hreq hop hg] at hu
        simp at hu
  · unfold tokLinkStep at hu
    rw [if_neg hreq] at hu
    simp at hu

/-- C2 (counterexample): the tree variant
(`src/fetch-forum-topic.go` lines 284-318) has no host check at all: a
requisite `<img src="http://other.example/a.png">` on a page at
`forum.example` *is* fetched (one network GET to the cross-host URL) and
its attribute *is* rewritten, contradicting both halves of the claim. -/
theorem c2_crossHostFetched :
    (let pageURL : GoURL := { scheme := "http", host := "forum.example", path := "/topic" }
     let link : GoURL := { scheme := "http", host := "other.example", path := "/a.png" }
     let r := treeLinkStep pageURL (filepathDir (filepathFromSlash pageURL.path))
       (fun _ => some "image/png") .src .other false "" link
     r.fetched.length = 1 ∧ (∀ u ∈ r.fetched, u.host = "other.example" ∧ u.host ≠ pageURL.host) ∧
       r.newVal = some "a.png") := by decide

/-- C2 (amended): the host restriction exists only in the tokenizer
variant (first program of `src/unnamed/part_000`): there, every URL for
which a network GET is issued has the page's host, and a requisite link
whose (resolved) host differs from the page's host triggers no fetch and
leaves the attribute value unmodified.  The tree variant and the context
variant fetch requisite links regardless of host. -/
theorem c2_tokHostGate (pageURL : GoURL) (pageDirpath : String)
    (fetchedResources : List String) (oracle : FetchOracle) (attr : LinkAttrAtom)
    (elem : ElemAtom) (hasRel : Bool) (rel : String) (linkURI : GoURL)
    (hreq : isRequisiteLink attr elem hasRel rel = true) :
    (∀ u ∈ (tokLinkStep pageURL pageDirpath fetchedResources oracle attr elem hasRel rel
        linkURI).fetched, u.host = pageURL.host) ∧
    (linkURI.opaquePart = "" → linkURI.path ≠ "" →
      (resolveReference pageURL linkURI).host ≠ pageURL.host →
      tokLinkStep pageURL pageDirpath fetchedResources oracle attr elem hasRel rel linkURI =
        { newVal := none, fetched := [], fetchedSet := fetchedResources }) ∧
    (linkURI.opaquePart ≠ "" → linkURI.host ≠ pageURL.host →
      tokLinkStep pageURL pageDirpath fetchedResources oracle attr elem hasRel rel linkURI =
        { newVal := none, fetched := [], fetchedSet := fetchedResources }) := by
  refine ⟨tokLinkStep_fetched_host pageURL pageDirpath fetchedResources oracle attr elem hasRel
    rel linkURI, ?_, ?_⟩
  · intro hop hpath hhost
    refine tokLinkStep_gate_skip pageURL pageDirpath fetchedResources oracle attr elem hasRel
      rel linkURI hreq hop hpath ?_
    unfold doesResourceHaveToBeFetched
    simp [hhost]
  · intro hop hhost
    refine tokLinkStep_gateSkipOpq pageURL pageDirpath fetchedResources oracle attr elem
      hasRel rel linkURI hreq hop ?_
    unfold doesResourceHaveToBeFetched
    simp [hhost]

/-- C2 (witness): the tokenizer-variant host gate at the concrete
cross-host image of the counterexample: no fetch, attribute untouched. -/
theorem c2_tokHostGate_w :
    (∀ u ∈ (tokLinkStep { scheme := "http", host := "forum.example", path := "/topic" } "/"
        [] (fun _ => some "image/png") .src .other false ""
        { scheme := "http", host := "other.example", path := "/a.png" }).fetched,
      u.host = ({ scheme := "http", host := "forum.example", path := "/topic" : GoURL }).host) ∧
    (({ scheme := "http", host := "other.example", path := "/a.png" : GoURL }).opaquePart = "" →
      ({ scheme := "http", host := "other.example", path := "/a.png" : GoURL }).path ≠ "" →
      (resolveReference { scheme := "http", host := "forum.example", path := "/topic" }
          { scheme := "http", host := "other.example", path := "/a.png" }).host ≠
        ({ scheme := "http", host := "forum.example", path := "/topic" : GoURL }).host →
      tokLinkStep { scheme := "http", host := "forum.example", path := "/topic" } "/"
          [] (fun _ => some "image/png") .src .other false ""
          { scheme := "http", host := "other.example", path := "/a.png" } =
        { newVal := none, fetched := [], fetchedSet := [] }) ∧
    (({ scheme := "http", host := "other.example", path := "/a.png" : GoURL }).opaquePart ≠ "" →
      ({ scheme := "http", host := "other.example", path := "/a.png" : GoURL }).host ≠
        ({ scheme := "http", host := "forum.example", path := "/topic" : GoURL }).host →
      tokLinkStep { scheme := "http", host := "forum.example", path := "/topic" } "/"
          [] (fun _ => some "image/png") .src .other false ""
          { scheme := "http", host := "other.example", path := "/a.png" } =
        { newVal := none, fetched := [], fetchedSet := [] }) :=
  c2_tokHostGate { scheme := "http", host := "forum.example", path := "/topic" } "/"
    [] (fun _ => some "image/png") .src .other false ""
    { scheme := "http", host := "other.example", path := "/a.png" } (by decide)

/-- C10: a requisite, non-opaque link whose parsed URL has an empty path
(fragment-only or query-only references) is left completely unchanged and
triggers no fetch: the tree variant returns before resolving or fetching,
and `fetchResourceFromLinkIfNecessary` returns `false` without invoking
the replacement callback, fetching, or touching the cache. -/
theorem c10_emptyPathUntouched (pageURL baseURL : GoURL) (pageDirpath dirpath : String)
    (cache : List (String × String)) (oracle : FetchOracle) (attr : LinkAttrAtom)
    (elem : ElemAtom) (hasRel : Bool) (rel : String) (linkURI : GoURL)
    (hreq : isRequisiteLink attr elem hasRel rel = true)
    (hop : linkURI.opaquePart = "") (hpath : linkURI.path = "") :
    treeLinkStep pageURL pageDirpath oracle attr elem hasRel rel linkURI =
      { newVal := none, fetched := [] } ∧
    fetchResourceFromLinkIfNecessary baseURL dirpath cache oracle linkURI =
      { ok := false, replaced := none, fetched := [], cache := cache } := by
  constructor
  · unfold treeLinkStep
    rw [if_pos hreq, if_pos hop, if_neg (by simp [hpath])]
  · unfold fetchResourceFromLinkIfNecessary
    rw [if_pos hop, if_pos hpath]

/-- C10 (witness): the untouched empty-path link at the concrete
query-only reference `?start=30` (`src` on a non-anchor element). -/
theorem c10_emptyPathUntouched_w :
    treeLinkStep { scheme := "http", host := "forum.example", path := "/topic" } "/"
        (fun _ => some "text/html") .src .other false "" { rawQuery := "start=30" } =
      { newVal := none, fetched := [] } ∧
    fetchResourceFromLinkIfNecessary { scheme := "http", host := "forum.example", path := "/topic" }
        "/" [] (fun _ => some "text/html") { rawQuery := "start=30" } =
      { ok := false, replaced := none, fetched := [], cache := [] } :=
  c10_emptyPathUntouched { scheme := "http", host := "forum.example", path := "/topic" }
    { scheme := "http", host := "forum.example", path := "/topic" } "/" "/" []
    (fun _ => some "text/html") .src .other false "" { rawQuery := "start=30" }
    (by decide) (by decide) (by decide)

theorem innerScan_spec :
    ∀ (s inner : List Char) (q : Char) (rem : List Char),
      innerScan s = some (inner, q, rem) → s = inner ++ q :: ')' :: rem := by
  intro s
  induction s with
  | nil => intro inner q rem h; exact absurd h (by simp [innerScan])
  | cons c rest ih =>
    intro inner q rem h
    rw [innerScan] at h
    by_cases h1 : isQuoteChar c ∧ rest.head? = some ')'
    · rw [if_pos h1] at h
      simp only [Option.some.injEq, Prod.mk.injEq] at h
      obtain ⟨hi, hq, hr⟩ := h
      cases rest with
      | nil => simp at h1
      | cons r0 rest1 =>
        have hr0 : r0 = ')' := by simpa using h1.2
        subst hr0
        simp at hr
        simp [← hi, ← hq, ← hr]
    · rw [if_neg h1] at h
      by_cases h2 : c = '\n'
      · rw [if_pos h2] at h; exact absurd h (by simp)
      · rw [if_neg h2] at h
        cases hin : innerScan rest with
        | none => rw [hin] at h; exact absurd h (by simp)
        | some t =>
          obtain ⟨inner1, q1, rem1⟩ := t
          rw [hin] at h
          simp only [Option.some.injEq, Prod.mk.injEq] at h
          obtain ⟨hi, hq, hr⟩ := h
          have hrest := ih inner1 q1 rem1 hin
          subst hq hr
          rw [← hi, hrest]
          simp

theorem cssMatchAt_spec (s g1 inner g3 rem : List Char)
    (h : cssMatchAt s = some (g1, inner, g3, rem)) :
    s = g1 ++ inner ++ g3 ++ rem ∧ g1 ≠ [] := by
  cases s with
  | nil => simp [cssMatchAt] at h
  | cons c1 s1 =>
    cases s1 with
    | nil => simp [cssMatchAt] at h
    | cons c2 s2 =>
      cases s2 with
      | nil => simp [cssMatchAt] at h
      | cons c3 rest =>
        simp only [cssMatchAt] at h
        by_cases hurl : c1 = 'u' ∧ c2 = 'r' ∧ c3 = 'l'
        · rw [if_pos hurl] at h
          have hsplit : rest.takeWhile isSpaceRE2 ++ rest.dropWhile isSpaceRE2 = rest :=
            List.takeWhile_append_dropWhile isSpaceRE2 rest
          rw [List.span_eq_take_drop] at h
          cases hd : rest.dropWhile isSpaceRE2 with
          | nil => rw [hd] at h; simp at h
          | cons p w2 =>
            cases w2 with
            | nil => rw [hd] at h; simp at h
            | cons q rest3 =>
              rw [hd] at h
              dsimp only at h
              by_cases hpq : p = '(' ∧ isQuoteChar q
              · rw [if_pos hpq] at h
                cases hin : innerScan rest3 with
                | none => rw [hin] at h; simp at h
                | some t =>
                  obtain ⟨inner1, q2, rem1⟩ := t
                  rw [hin] at h
                  simp only [Option.some.injEq, Prod.mk.injEq] at h
                  obtain ⟨hg1, hi, hg3, hr⟩ := h
                  have hrest3 := innerScan_spec rest3 inner1 q2 rem1 hin
                  constructor
                  · rw [← hg1, ← hi, ← hg3, ← hr]
                    have hre : rest = rest.takeWhile isSpaceRE2 ++ (p :: q :: rest3) := by
                      rw [← hd]; exact hsplit.symm
                    conv_lhs => rw [hre, hrest3]
                    simp
                  · rw [← hg1]; simp
              · rw [if_neg hpq] at h; simp at h
        · rw [if_neg hurl] at h; simp at h

theorem findCSSURL_spec :
    ∀ (css pre g1 inner g3 rem : List Char),
      findCSSURL css = some (pre, g1, inner, g3, rem) →
      css = pre ++ g1 ++ inner ++ g3 ++ rem ∧ g1 ≠ [] := by
  intro css
  induction css with
  | nil => intro pre g1 inner g3 rem h; exact absurd h (by simp [findCSSURL])
  | cons c rest ih =>
    intro pre g1 inner g3 rem h
    rw [findCSSURL] at h
    cases hm : cssMatchAt (c :: rest) with
    | some t =>
      obtain ⟨a, b, d, e⟩ := t
      rw [hm] at h
      simp only [Option.some.injEq, Prod.mk.injEq] at h
      obtain ⟨hp, ha, hb, hd, he⟩ := h
      have hspec := cssMatchAt_spec (c :: rest) a b d e hm
      subst ha hb hd he
      rw [← hp]
      simpa using hspec
    | none =>
      rw [hm] at h
      cases hf : findCSSURL rest with
      | none => rw [hf] at h; exact absurd h (by simp)
      | some t =>
        obtain ⟨p1, a, b, d, e⟩ := t
        rw [hf] at h
        simp only [Option.some.injEq, Prod.mk.injEq] at h
        obtain ⟨hp, ha, hb, hd, he⟩ := h
        have hspec := ih p1 a b d e hf
        subst ha hb hd he
        rw [← hp]
        refine ⟨?_, hspec.2⟩
        simp [hspec.1]

/-- C8: when the next `url(...)` occurrence's inner link text fails to
parse as a URL, the rewriter emits everything up to the end of that match
— including the entire occurrence `g1 ++ inner ++ g3`, byte for byte at
its original position — and continues scanning the remainder after it,
with the cache untouched. -/
theorem c8_unparsableVerbatim (baseURL : GoURL) (dirpath : String) (oracle : FetchOracle)
    (fuel : Nat) (cache : List (String × String)) (css pre g1 inner g3 rem : List Char)
    (hfind : findCSSURL css = some (pre, g1, inner, g3, rem))
    (hparse : urlParse (String.mk inner) = none) :
    css = pre ++ g1 ++ inner ++ g3 ++ rem ∧
    fetchLinkedResourcesInCSS baseURL dirpath oracle (fuel + 1) cache css =
      (fetchLinkedResourcesInCSS baseURL dirpath oracle fuel cache rem).map
        (fun out => (pre ++ g1 ++ inner ++ g3 ++ out.1, out.2)) := by
  refine ⟨(findCSSURL_spec css pre g1 inner g3 rem hfind).1, ?_⟩
  rw [fetchLinkedResourcesInCSS, hfind]
  dsimp only
  rw [hparse]
  cases hrec : fetchLinkedResourcesInCSS baseURL dirpath oracle fuel cache rem with
  | none => simp
  | some out => obtain ⟨o, c2⟩ := out; simp

/-- C8 (witness): the concrete CSS text `url(":")x`, whose inner link
text `:` fails `url.Parse` (missing protocol scheme). -/
theorem c8_unparsableVerbatim_w :
    "url(\":\")x".toList =
      ([] : List Char) ++ "url(\"".toList ++ ":".toList ++ "\")".toList ++ "x".toList ∧
    fetchLinkedResourcesInCSS { scheme := "http", host := "h.example", path := "/s.css" } "/"
        (fun _ => none) 2 [] "url(\":\")x".toList =
      (fetchLinkedResourcesInCSS { scheme := "http", host := "h.example", path := "/s.css" } "/"
          (fun _ => none) 1 [] "x".toList).map
        (fun out => (([] : List Char) ++ "url(\"".toList ++ ":".toList ++ "\")".toList ++ out.1,
          out.2)) :=
  c8_unparsableVerbatim { scheme := "http", host := "h.example", path := "/s.css" } "/"
    (fun _ => none) 1 [] "url(\":\")x".toList [] "url(\"".toList ":".toList "\")".toList
    "x".toList (by decide) (by decide)

theorem cssRewrite_total :
    ∀ (fuel : Nat) (css : List Char), css.length < fuel →
    ∀ (baseURL : GoURL) (dirpath : String) (oracle : FetchOracle)
      (cache : List (String × String)),
      (fetchLinkedResourcesInCSS baseURL dirpath oracle fuel cache css).isSome = true := by
  intro fuel
  induction fuel with
  | zero => intro css h; exact absurd h (Nat.not_lt_zero _)
  | succ f ih =>
    intro css h baseURL dirpath oracle cache
    rw [fetchLinkedResourcesInCSS]
    cases hfind : findCSSURL css with
    | none => simp
    | some t =>
      obtain ⟨pre, g1, inner, g3, rem⟩ := t
      have hspec := findCSSURL_spec css pre g1 inner g3 rem hfind
      have hlen : rem.length < css.length := by
        rcases hspec with ⟨heq, hne⟩
        have hg1 : 0 < g1.length := List.length_pos.mpr hne
        rw [heq]
        simp only [List.length_append]
        omega
      have hrem : rem.length < f := Nat.lt_of_lt_of_le hlen (Nat.lt_succ_iff.mp h)
      cases hparse : urlParse (String.mk inner) with
      | none =>
        have hrec := ih rem hrem baseURL dirpath oracle cache
        cases hr : fetchLinkedResourcesInCSS baseURL dirpath oracle f cache rem with
        | none => rw [hr] at hrec; exact absurd hrec (by simp)
        | some out => simp [hparse, hr]
      | some linkURI =>
        have hrec := ih rem hrem baseURL dirpath oracle
          (fetchResourceFromLinkIfNecessary baseURL dirpath cache oracle linkURI).cache
        cases hr : fetchLinkedResourcesInCSS baseURL dirpath oracle f
            (fetchResourceFromLinkIfNecessary baseURL dirpath cache oracle linkURI).cache rem with
        | none => rw [hr] at hrec; exact absurd hrec (by simp)
        | some out => simp [hparse, hr]

/-- C9: the CSS rewrite loop terminates on every input: a fuel of
`|css| + 1` iterations always completes, because every match found by
`cssURLMatcher` satisfies `css = pre ++ g1 ++ inner ++ g3 ++ rem` with
`g1 ≠ []` — each iteration consumes at least the matched span, so the
unprocessed remainder strictly shrinks. -/
theorem c9_cssTerminates :
    (∀ (baseURL : GoURL) (dirpath : String) (oracle : FetchOracle)
        (cache : List (String × String)) (css : List Char),
      (fetchLinkedResourcesInCSS baseURL dirpath oracle (css.length + 1) cache css).isSome =
        true) ∧
    (∀ (css pre g1 inner g3 rem : List Char),
      findCSSURL css = some (pre, g1, inner, g3, rem) →
      css = pre ++ g1 ++ inner ++ g3 ++ rem ∧ g1 ≠ [] ∧ rem.length < css.length) := by
  constructor
  · intro baseURL dirpath oracle cache css
    exact cssRewrite_total (css.length + 1) css (Nat.lt_succ_self _) baseURL dirpath oracle cache
  · intro css pre g1 inner g3 rem hfind
    obtain ⟨heq, hne⟩ := findCSSURL_spec css pre g1 inner g3 rem hfind
    refine ⟨heq, hne, ?_⟩
    have hg1 : 0 < g1.length := List.length_pos.mpr hne
    rw [heq]
    simp only [List.length_append]
    omega

/-- C9 (witness): the consumption fact at the concrete CSS text
`url("a")` (which is one whole match), and via the first conjunct the
loop's completion on it. -/
theorem c9_cssTerminates_w :
    (fetchLinkedResourcesInCSS { scheme := "http", host := "h.example", path := "/s.css" } "/"
        (fun _ => some "image/png") ("url(\"a\")".toList.length + 1) []
        "url(\"a\")".toList).isSome = true ∧
    ("url(\"a\")".toList = ([] : List Char) ++ "url(\"".toList ++ "a".toList ++ "\")".toList ++
        ([] : List Char) ∧ "url(\"".toList ≠ ([] : List Char) ∧
      ([] : List Char).length < "url(\"a\")".toList.length) :=
  ⟨c9_cssTerminates.1 { scheme := "http", host := "h.example", path := "/s.css" } "/"
      (fun _ => some "image/png") [] "url(\"a\")".toList,
   c9_cssTerminates.2 "url(\"a\")".toList [] "url(\"".toList "a".toList "\")".toList []
      (by decide)⟩

/-! ### Cache-key shape lemmas (for C3) -/

theorem containsSub_single_false :
    ∀ (l : List Char) (c : Char), containsSub [c] l = false → ∀ x ∈ l, x ≠ c := by
  intro l c
  induction l with
  | nil => intro _ x hx; exact absurd hx (by simp)
  | cons y rest ih =>
    intro h x hx
    rw [containsSub] at h
    simp only [Bool.or_eq_false_iff] at h
    rcases List.mem_cons.mp hx with rfl | hx
    · intro hxc
      subst hxc
      have : List.isPrefixOf [x] (x :: rest) = true := by simp [List.isPrefixOf]
      rw [this] at h
      exact absurd h.1 (by simp)
    · exact ih h.2 x hx

theorem cutChar_append_colon :
    ∀ (a : List Char), (∀ c ∈ a, c ≠ ':') → ∀ b : List Char,
      cutChar (a ++ ':' :: b) ':' = (a, some b) := by
  intro a
  induction a with
  | nil => intro _ b; simp [cutChar]
  | cons x rest ih =>
    intro h b
    have hx : x ≠ ':' := h x (by simp)
    simp only [List.cons_append, cutChar, if_neg hx, List.append_eq]
    rw [ih (fun c hc => h c (by simp [hc])) b]

theorem lookup_mem_keys :
    ∀ (l : List (String × String)) (k v : String), List.lookup k l = some v → (k, v) ∈ l := by
  intro l k v
  induction l with
  | nil => intro h; exact absurd h (by simp)
  | cons p rest ih =>
    intro h
    obtain ⟨k0, v0⟩ := p
    rw [List.lookup] at h
    by_cases hk : k = k0
    · subst hk
      simp only [beq_self_eq_true] at h
      simp only [Option.some.injEq] at h
      subst h
      simp
    · have : (k == k0) = false := by simp [hk]
      rw [this] at h
      exact List.mem_cons_of_mem _ (ih h)

theorem hasGoPrefix_slash_of_head (s : String) (h : s.toList.head? = some '/') :
    strHasGoPrefix s "/" = true := by
  unfold strHasGoPrefix
  cases hs : s.toList with
  | nil => rw [hs] at h; exact absurd h (by simp)
  | cons c tl =>
    rw [hs] at h
    simp only [List.head?_cons, Option.some.injEq] at h
    subst h
    simp [List.isPrefixOf]

theorem resolvePath_shape (base ref : String) :
    resolvePath base ref = "" ∨ (resolvePath base ref).toList.head? = some '/' := by
  unfold resolvePath
  by_cases h : (if ref = "" then base
      else if ¬ strHasGoPrefix ref "/" then String.mk (lastSlashKeep base.toList) ++ ref
      else ref) = ""
  · left; rw [if_pos h]
  · right; rw [if_neg h]; rfl

theorem resolveReference_nonopaque (base v : GoURL) (hop : v.opaquePart = "") :
    (resolveReference base v).opaquePart = "" ∧
    (v.scheme ≠ "" → (resolveReference base v).scheme = v.scheme) ∧
    (v.scheme = "" → (resolveReference base v).scheme = base.scheme) ∧
    ((resolveReference base v).path = "" ∨
      (resolveReference base v).path.toList.head? = some '/') := by
  unfold resolveReference
  by_cases hc1 : v.scheme ≠ "" ∨ v.host ≠ ""
  · rw [if_pos hc1]
    by_cases hvs : v.scheme = ""
    · simp only [hvs, if_pos rfl]
      exact ⟨hop, fun hne => absurd rfl hne, fun _ => rfl, resolvePath_shape v.path ""⟩
    · have : ¬ (v.scheme = "") := hvs
      rw [if_neg this]
      exact ⟨hop, fun _ => rfl, fun he => absurd he hvs, resolvePath_shape v.path ""⟩
  · rw [if_neg hc1]
    rw [if_neg (by simp [hop])]
    by_cases hvs : v.scheme = ""
    · simp only [hvs, if_pos rfl]
      by_cases hq : v.path = "" ∧ ¬ v.forceQuery ∧ v.rawQuery = ""
      · rw [if_pos hq]
        exact ⟨hop, fun hne => absurd rfl hne, fun _ => rfl, resolvePath_shape base.path v.path⟩
      · rw [if_neg hq]
        exact ⟨hop, fun hne => absurd rfl hne, fun _ => rfl, resolvePath_shape base.path v.path⟩
    · rw [if_neg hvs]
      by_cases hq : v.path = "" ∧ ¬ v.forceQuery ∧ v.rawQuery = ""
      · rw [if_pos hq]
        exact ⟨hop, fun _ => rfl, fun he => absurd he hvs, resolvePath_shape base.path v.path⟩
      · rw [if_neg hq]
        exact ⟨hop, fun _ => rfl, fun he => absurd he hvs, resolvePath_shape base.path v.path⟩

theorem strAppend_colon_ne (a : String) : a ++ ":" ≠ "" := by
  intro h
  have h2 := congrArg String.toList h
  rw [strToList_append] at h2
  simp at h2

theorem str_eq_empty_of_toList_nil (s : String) (h : s.toList = []) : s = "" := by
  cases s with
  | mk d =>
    simp only [String.toList] at h
    subst h
    rfl

theorem resolvedKeyStr_urlString (r : GoURL) (h1 : r.opaquePart = "") (h2 : r.scheme ≠ "")
    (hc : strContains r.scheme ":" = false)
    (h3 : r.path = "" ∨ r.path.toList.head? = some '/') :
    resolvedKeyStr (urlString r) = true := by
  have hfree : ∀ c ∈ r.scheme.toList, c ≠ ':' := containsSub_single_false r.scheme.toList ':' hc
  have hcut : ∀ b : List Char, cutChar (r.scheme.data ++ ':' :: b) ':' = (r.scheme.data, some b) :=
    cutChar_append_colon r.scheme.toList hfree
  have hsne : ¬ (r.scheme ++ ":" = "") := strAppend_colon_ne r.scheme
  have hslash : ¬ (r.path ≠ "" ∧ ¬ strHasGoPrefix r.path "/" = true ∧ r.host ≠ "") := by
    rcases h3 with h3 | h3
    · rintro ⟨hp, -, -⟩; exact hp h3
    · rintro ⟨-, hpre, -⟩; exact hpre (hasGoPrefix_slash_of_head r.path h3)
  by_cases hh : r.host = ""
  · by_cases hp : r.path = ""
    · by_cases hq : (r.forceQuery = true ∨ r.rawQuery ≠ "")
      · simp [urlString, resolvedKeyStr, h1, h2, hh, hp, hq, hsne, hcut, pathColonFirstSeg,
          containsSub, strToList_append]
      · by_cases hf : r.fragment = ""
        · simp [urlString, resolvedKeyStr, h1, h2, hh, hp, hq, hf, hsne, hcut,
            pathColonFirstSeg, containsSub, strToList_append]
        · simp [urlString, resolvedKeyStr, h1, h2, hh, hp, hq, hf, hsne, hcut,
            pathColonFirstSeg, containsSub, strToList_append]
    · have hp3 : r.path.toList.head? = some '/' := by
        rcases h3 with h3 | h3
        · exact absurd h3 hp
        · exact h3
      obtain ⟨c0, tl, hts⟩ : ∃ c0 tl, r.path.toList = c0 :: tl := by
        cases ht : r.path.toList with
        | nil => rw [ht] at hp3; exact absurd hp3 (by simp)
        | cons a b => exact ⟨a, b, rfl⟩
      have hc0 : c0 = '/' := by rw [hts] at hp3; simpa using hp3
      subst hc0
      simp [urlString, resolvedKeyStr, h1, h2, hh, hp, hslash, hsne, hcut, hts,
        strToList_append]
  · by_cases hp : r.path = ""
    · simp [urlString, resolvedKeyStr, h1, h2, hh, hp, hslash, hsne, hcut, strToList_append]
    · simp [urlString, resolvedKeyStr, h1, h2, hh, hp, hslash, hsne, hcut, strToList_append]

theorem resolvedKeyStr_opq (u : GoURL) (hop : u.opaquePart ≠ "") (hwf : wfOcc u) :
    resolvedKeyStr (urlString u) = false := by
  obtain ⟨hcs, hrest⟩ := hwf
  obtain ⟨hs, hne1, hne2, hne3⟩ := hrest hop
  have hfree : ∀ c ∈ u.scheme.toList, c ≠ ':' := containsSub_single_false u.scheme.toList ':' hcs
  have hcut : ∀ b : List Char, cutChar (u.scheme.data ++ ':' :: b) ':' = (u.scheme.data, some b) :=
    cutChar_append_colon u.scheme.toList hfree
  cases ho : u.opaquePart.toList with
  | nil => exact absurd (str_eq_empty_of_toList_nil u.opaquePart ho) hop
  | cons o tl =>
    have ho1 : o ≠ '/' := by rw [ho] at hne1; simpa using hne1
    have ho2 : o ≠ '?' := by rw [ho] at hne2; simpa using hne2
    have ho3 : o ≠ '#' := by rw [ho] at hne3; simpa using hne3
    have hod : u.opaquePart.data = o :: tl := ho
    simp [urlString, resolvedKeyStr, hop, hs, hcut, hod, ho1, ho2, ho3, strToList_append]

theorem resolvedKeyStr_resolve (base v : GoURL) (hbs : base.scheme ≠ "")
    (hbf : strContains base.scheme ":" = false) (hvf : strContains v.scheme ":" = false)
    (hop : v.opaquePart = "") :
    resolvedKeyStr (urlString (resolveReference base v)) = true := by
  obtain ⟨h1, h3, h4, h5⟩ := resolveReference_nonopaque base v hop
  by_cases hv : v.scheme = ""
  · exact resolvedKeyStr_urlString _ h1 (by rw [h4 hv]; exact hbs) (by rw [h4 hv]; exact hbf) h5
  · exact resolvedKeyStr_urlString _ h1 (by rw [h3 hv]; exact hv) (by rw [h3 hv]; exact hvf) h5

theorem lookup_cons_ne (k s v : String) (l : List (String × String)) (h : s ≠ k) :
    List.lookup s ((k, v) :: l) = List.lookup s l := by
  rw [List.lookup]
  have hb : (s == k) = false := by simp [h]
  rw [hb]

theorem bStep_empty_path (baseURL : GoURL) (dirpath : String) (cache : List (String × String))
    (oracle : FetchOracle) (v : GoURL) (hop : v.opaquePart = "") (hpath : v.path = "") :
    fetchResourceFromLinkIfNecessary baseURL dirpath cache oracle v =
      { ok := false, replaced := none, fetched := [], cache := cache } := by
  unfold fetchResourceFromLinkIfNecessary
  rw [if_pos hop, if_pos hpath]

theorem bStep_hit (baseURL : GoURL) (dirpath : String) (cache : List (String × String))
    (oracle : FetchOracle) (v : GoURL) (ct : String)
    (hop : v.opaquePart = "") (hpath : v.path ≠ "")
    (hlook : List.lookup (urlString (resolveReference baseURL v)) cache = some ct) :
    fetchResourceFromLinkIfNecessary baseURL dirpath cache oracle v =
      { ok := (bRelativeReference dirpath (resolveReference baseURL v) ct).isSome,
        replaced := bRelativeReference dirpath (resolveReference baseURL v) ct,
        fetched := [], cache := cache } := by
  unfold fetchResourceFromLinkIfNecessary
  rw [if_pos hop, if_neg hpath]
  dsimp only
  rw [hlook]
  cases hb : bRelativeReference dirpath (resolveReference baseURL v) ct <;> simp [hb]

theorem bStep_miss (baseURL : GoURL) (dirpath : String) (cache : List (String × String))
    (oracle : FetchOracle) (v : GoURL) (ct : String)
    (hop : v.opaquePart = "") (hpath : v.path ≠ "")
    (hlook : List.lookup (urlString (resolveReference baseURL v)) cache = none)
    (ho : oracle (resolveReference baseURL v) = some ct) :
    (fetchResourceFromLinkIfNecessary baseURL dirpath cache oracle v).fetched =
      [resolveReference baseURL v] ∧
    (fetchResourceFromLinkIfNecessary baseURL dirpath cache oracle v).cache =
      (urlString (resolveReference baseURL v), ct) :: cache := by
  unfold fetchResourceFromLinkIfNecessary
  rw [if_pos hop, if_neg hpath]
  dsimp only
  rw [hlook, ho]
  cases hb : bRelativeReference dirpath (resolveReference baseURL v) ct <;> simp [hb]

theorem bStep_opaque_nohit (baseURL : GoURL) (dirpath : String)
    (cache : List (String × String)) (oracle : FetchOracle) (v : GoURL)
    (hop : v.opaquePart ≠ "") (hlook : List.lookup (urlString v) cache = none) :
    fetchResourceFromLinkIfNecessary baseURL dirpath cache oracle v =
      { ok := true, replaced := some (bOpaqueReference v ""), fetched := [], cache := cache } := by
  unfold fetchResourceFromLinkIfNecessary
  rw [if_neg hop, hlook]

theorem bProcess_fetch_bound (baseURL : GoURL) (dirpath : String) (oracle : FetchOracle)
    (hbs : baseURL.scheme ≠ "") (hbf : strContains baseURL.scheme ":" = false)
    (horacle : ∀ u, (oracle u).isSome = true) :
    ∀ (occs : List GoURL), (∀ u ∈ occs, wfOcc u) →
    ∀ (cache : List (String × String)), (∀ kv ∈ cache, resolvedKeyStr kv.1 = true) →
    (∀ kv ∈ (bProcessLinks baseURL dirpath oracle cache occs).1, resolvedKeyStr kv.1 = true) ∧
    (∀ s : String,
      countOccur s ((bProcessLinks baseURL dirpath oracle cache occs).2.map urlString) ≤
        (if (List.lookup s cache).isSome then 0 else 1)) := by
  intro occs
  induction occs with
  | nil =>
    intro _ cache hcw
    refine ⟨by simpa [bProcessLinks] using hcw, ?_⟩
    intro s
    simp [bProcessLinks, countOccur]
  | cons v rest ih =>
    intro hwf cache hcw
    have hwv : wfOcc v := hwf v (by simp)
    have hwrest : ∀ u ∈ rest, wfOcc u := fun u hu => hwf u (by simp [hu])
    by_cases hov : v.opaquePart = ""
    · by_cases hpath : v.path = ""
      · have hstep := bStep_empty_path baseURL dirpath cache oracle v hov hpath
        have hres := ih hwrest cache hcw
        constructor
        · intro kv hkv
          apply hres.1 kv
          simpa [bProcessLinks, hstep] using hkv
        · intro s
          have h2 := hres.2 s
          simpa [bProcessLinks, hstep] using h2
      · have hkey : resolvedKeyStr (urlString (resolveReference baseURL v)) = true :=
          resolvedKeyStr_resolve baseURL v hbs hbf hwv.1 hov
        cases hlook : List.lookup (urlString (resolveReference baseURL v)) cache with
        | some ct =>
          have hstep := bStep_hit baseURL dirpath cache oracle v ct hov hpath hlook
          have hres := ih hwrest cache hcw
          constructor
          · intro kv hkv
            apply hres.1 kv
            simpa [bProcessLinks, hstep] using hkv
          · intro s
            have h2 := hres.2 s
            simpa [bProcessLinks, hstep] using h2
        | none =>
          cases ho : oracle (resolveReference baseURL v) with
          | none =>
            have hcon := horacle (resolveReference baseURL v)
            rw [ho] at hcon
            exact absurd hcon (by simp)
          | some ct =>
            have hstep := bStep_miss baseURL dirpath cache oracle v ct hov hpath hlook ho
            have hcw' : ∀ kv ∈ ((urlString (resolveReference baseURL v), ct) :: cache),
                resolvedKeyStr kv.1 = true := by
              intro kv hkv
              rcases List.mem_cons.mp hkv with rfl | hkv
              · exact hkey
              · exact hcw kv hkv
            have hres := ih hwrest _ hcw'
            constructor
            · intro kv hkv
              apply hres.1 kv
              simpa [bProcessLinks, hstep.2] using hkv
            · intro s
              have h2 := hres.2 s
              by_cases hs : urlString (resolveReference baseURL v) = s
              · subst hs
                have hself : List.lookup (urlString (resolveReference baseURL v))
                    ((urlString (resolveReference baseURL v), ct) :: cache) = some ct := by
                  rw [List.lookup]
                  simp
                rw [hself] at h2
                simp only [Option.isSome_some, if_true] at h2
                have hz : countOccur (urlString (resolveReference baseURL v))
                    ((bProcessLinks baseURL dirpath oracle
                      ((urlString (resolveReference baseURL v), ct) :: cache) rest).2.map
                        urlString) = 0 := Nat.le_zero.mp h2
                simp [bProcessLinks, hstep.1, hstep.2, countOccur, hlook, hz]
              · have hlc := lookup_cons_ne (urlString (resolveReference baseURL v)) s ct cache (Ne.symm hs)
                rw [hlc] at h2
                have hmap : (if urlString (resolveReference baseURL v) = s then 1 else 0) = 0 := by
                  simp [hs]
                simp only [bProcessLinks, hstep.1, hstep.2]
                simpa [countOccur, hmap] using h2
    · have hkey : resolvedKeyStr (urlString v) = false := resolvedKeyStr_opq v hov hwv
      cases hlook : List.lookup (urlString v) cache with
      | some ct =>
        have hmem := lookup_mem_keys cache (urlString v) ct hlook
        have := hcw _ hmem
        rw [hkey] at this
        exact absurd this (by simp)
      | none =>
        have hstep := bStep_opaque_nohit baseURL dirpath cache oracle v hov hlook
        have hres := ih hwrest cache hcw
        constructor
        · intro kv hkv
          apply hres.1 kv
          simpa [bProcessLinks, hstep] using hkv
        · intro s
          have h2 := hres.2 s
          simpa [bProcessLinks, hstep] using h2

/-! ### The recursive model vs the flat model (for C3) -/

/-- Fuel exhaustion leaves the state untouched. -/
theorem bRec_zero_st (oracle : FetchOracle2) (c : RecCall) (st : RecState) :
    (bRec oracle 0 c st).st = st := by
  cases c <;> rfl

/-- Unfolding equation for a `.link` call with fuel left. -/
theorem bRec_link_eq (oracle : FetchOracle2) (fuel : Nat) (base : GoURL) (dirpath : String)
    (u : GoURL) (st : RecState) :
    bRec oracle (fuel+1) (.link base dirpath u) st =
      (if u.opaquePart = "" then
        if u.path = "" then { st := st }
        else
          let resolved := resolveReference base u
          match List.lookup (urlString resolved) st.cache with
          | some contentType =>
            match bRelativeReference dirpath resolved contentType with
            | none => { st := st }
            | some rr => { ok := true, replaced := some rr, st := st }
          | none =>
            let g := bRec oracle fuel (.getWrite resolved) st
            match g.ct with
            | none => { st := g.st }
            | some contentType =>
              let st1 : RecState :=
                { g.st with cache := (urlString resolved, contentType) :: g.st.cache }
              match bRelativeReference dirpath resolved contentType with
              | none => { st := st1 }
              | some rr => { ok := true, replaced := some rr, st := st1 }
      else
        match List.lookup (urlString u) st.cache with
        | some _ =>
          let g := bRec oracle fuel (.getWrite u) st
          match g.ct with
          | none => { st := g.st }
          | some contentType =>
            { ok := true, replaced := some (bOpaqueReference u contentType),
              st := { g.st with cache := (urlString u, contentType) :: g.st.cache } }
        | none => { ok := true, replaced := some (bOpaqueReference u ""), st := st } :
        RecOut) := rfl

/-- Unfolding equation for a `.getWrite` call with fuel left. -/
theorem bRec_getWrite_eq (oracle : FetchOracle2) (fuel : Nat) (u : GoURL) (st : RecState) :
    bRec oracle (fuel+1) (.getWrite u) st =
      (match oracle u with
      | none => { st := { st with log := st.log ++ [urlString u] } }
      | some (contentType, body) =>
        if strHasGoPrefix contentType "text/css" then
          { ct := some contentType,
            st := (bRec oracle fuel (.css u (filepathDir (filepathFromSlash u.path)) body)
              { st with log := st.log ++ [urlString u] }).st }
        else { ct := some contentType, st := { st with log := st.log ++ [urlString u] } } :
        RecOut) := rfl

/-- When the oracle never produces a stylesheet content type,
`getAndWriteResourceToFile` never recurses: it logs its GET and reports
the content type, nothing else. -/
theorem getWrite_flat (oracle : FetchOracle2)
    (hcss : ∀ v p, oracle v = some p → strHasGoPrefix p.1 "text/css" = false)
    (fuel : Nat) (u : GoURL) (st : RecState) :
    bRec oracle (fuel+1) (.getWrite u) st =
      { ct := oracleCt oracle u, st := { st with log := st.log ++ [urlString u] } } := by
  rw [bRec_getWrite_eq]
  cases ho : oracle u with
  | none => simp [oracleCt, ho]
  | some p =>
    obtain ⟨ct, body⟩ := p
    have hc := hcss u (ct, body) ho
    simp [oracleCt, ho, hc]

/-- When the oracle never produces a stylesheet content type, a `.link`
call with fuel for its inner fetch behaves exactly as the flat
`fetchResourceFromLinkIfNecessary`, the GETs appended to the log. -/
theorem linkStep_flat (oracle : FetchOracle2)
    (hcss : ∀ v p, oracle v = some p → strHasGoPrefix p.1 "text/css" = false)
    (fuel : Nat) (base : GoURL) (dirpath : String) (u : GoURL) (st : RecState) :
    bRec oracle (fuel+2) (.link base dirpath u) st =
      { ok := (fetchResourceFromLinkIfNecessary base dirpath st.cache (oracleCt oracle) u).ok,
        replaced :=
          (fetchResourceFromLinkIfNecessary base dirpath st.cache (oracleCt oracle) u).replaced,
        st := { cache :=
                  (fetchResourceFromLinkIfNecessary base dirpath st.cache (oracleCt oracle) u).cache,
                log := st.log ++
                  ((fetchResourceFromLinkIfNecessary base dirpath st.cache
                    (oracleCt oracle) u).fetched.map urlString) } } := by
  show bRec oracle (fuel+1+1) (.link base dirpath u) st = _
  rw [bRec_link_eq]
  unfold fetchResourceFromLinkIfNecessary
  by_cases hop : u.opaquePart = ""
  · rw [if_pos hop, if_pos hop]
    by_cases hp : u.path = ""
    · rw [if_pos hp, if_pos hp]
      simp
    · rw [if_neg hp, if_neg hp]
      dsimp only
      cases hlook : List.lookup (urlString (resolveReference base u)) st.cache with
      | some ct =>
        cases hb : bRelativeReference dirpath (resolveReference base u) ct <;> simp [hb]
      | none =>
        rw [getWrite_flat oracle hcss fuel (resolveReference base u) st]
        dsimp only [oracleCt]
        cases ho : oracle (resolveReference base u) with
        | none => simp [ho]
        | some p =>
          obtain ⟨ct, body⟩ := p
          simp only [ho, Option.map_some']
          cases hb : bRelativeReference dirpath (resolveReference base u) ct <;> simp [hb]
  · rw [if_neg hop, if_neg hop]
    cases hlook : List.lookup (urlString u) st.cache with
    | some ct0 =>
      rw [getWrite_flat oracle hcss fuel u st]
      dsimp only [oracleCt]
      cases ho : oracle u with
      | none => simp [ho]
      | some p =>
        obtain ⟨ct, body⟩ := p
        simp [ho]
    | none =>
      simp

/-- A per-step inert `bRec` keeps the whole scan inert. -/
theorem bProcessRec_inert (oracle : FetchOracle2) (base : GoURL) (dirpath : String)
    (fuel : Nat) (hstep : ∀ u s, (bRec oracle fuel (.link base dirpath u) s).st = s) :
    ∀ (occs : List GoURL) (st : RecState),
      bProcessLinksRec oracle base dirpath fuel occs st = st := by
  intro occs
  induction occs with
  | nil => intro st; rfl
  | cons v rest ih =>
    intro st
    show bProcessLinksRec oracle base dirpath fuel rest
      (bRec oracle fuel (.link base dirpath v) st).st = st
    rw [hstep]
    exact ih st

/-- With fuel `1` a `.link` call cannot reach the oracle (its inner
`.getWrite` is starved), so the state is untouched. -/
theorem bRec_one_link_st (oracle : FetchOracle2) (base : GoURL) (dirpath : String)
    (u : GoURL) (st : RecState) :
    (bRec oracle 1 (.link base dirpath u) st).st = st := by
  show (bRec oracle (0+1) (.link base dirpath u) st).st = st
  rw [bRec_link_eq]
  by_cases hop : u.opaquePart = ""
  · rw [if_pos hop]
    by_cases hp : u.path = ""
    · rw [if_pos hp]
    · rw [if_neg hp]
      dsimp only
      cases hlook : List.lookup (urlString (resolveReference base u)) st.cache with
      | some ct =>
        cases hb : bRelativeReference dirpath (resolveReference base u) ct <;> simp [hb]
      | none =>
        have hg : bRec oracle 0 (.getWrite (resolveReference base u)) st = { st := st } := rfl
        rw [hg]
  · rw [if_neg hop]
    cases hlook : List.lookup (urlString u) st.cache with
    | some ct0 =>
      have hg : bRec oracle 0 (.getWrite u) st = { st := st } := rfl
      rw [hg]
    | none => rfl

/-- With enough fuel and no stylesheet content types, the recursive scan
is the flat scan with its GETs appended to the log. -/
theorem bProcessRec_flat (oracle : FetchOracle2)
    (hcss : ∀ v p, oracle v = some p → strHasGoPrefix p.1 "text/css" = false)
    (base : GoURL) (dirpath : String) (fuel : Nat) :
    ∀ (occs : List GoURL) (st : RecState),
      bProcessLinksRec oracle base dirpath (fuel+2) occs st =
        { cache := (bProcessLinks base dirpath (oracleCt oracle) st.cache occs).1,
          log := st.log ++
            ((bProcessLinks base dirpath (oracleCt oracle) st.cache occs).2.map urlString) } := by
  intro occs
  induction occs with
  | nil =>
    intro st
    simp [bProcessLinksRec, bProcessLinks]
  | cons v rest ih =>
    intro st
    show bProcessLinksRec oracle base dirpath (fuel+2) rest
      (bRec oracle (fuel+2) (.link base dirpath v) st).st = _
    rw [linkStep_flat oracle hcss fuel base dirpath v st]
    dsimp only
    rw [ih]
    simp [bProcessLinks, List.append_assoc]

/-- C3 (counterexample): the claim's at-most-one-fetch bound fails on a
self-referencing stylesheet.  On page `http://h.example/p/x` the single
occurrence `a.css` resolves to `http://h.example/p/a.css`, whose body is
`url("a.css")`: `getAndWriteResourceToFile` rewrites it through the same
cache *before* the key is stored, so the nested occurrence misses the
cache and GETs the same URL again.  At recursion depth 2 the URL is
fetched twice and its cache key written twice; one more depth yields a
third fetch (the source recursion on this input is unbounded). -/
theorem c3_cyclicCssRefetch :
    ((bRec (fun _ => some ("text/css", "url(\"a.css\")".toList)) 5
        (.link { scheme := "http", host := "h.example", path := "/p/x" } "/p"
          { path := "a.css" }) { cache := [], log := [] }).st =
      { cache := [("http://h.example/p/a.css", "text/css"),
                  ("http://h.example/p/a.css", "text/css")],
        log := ["http://h.example/p/a.css", "http://h.example/p/a.css"] } ∧
      countOccur "http://h.example/p/a.css"
        (bRec (fun _ => some ("text/css", "url(\"a.css\")".toList)) 5
          (.link { scheme := "http", host := "h.example", path := "/p/x" } "/p"
            { path := "a.css" }) { cache := [], log := [] }).st.log = 2) ∧
    countOccur "http://h.example/p/a.css"
      (bRec (fun _ => some ("text/css", "url(\"a.css\")".toList)) 8
        (.link { scheme := "http", host := "h.example", path := "/p/x" } "/p"
          { path := "a.css" }) { cache := [], log := [] }).st.log = 3 := by
  constructor
  · constructor <;> decide
  · decide

/-- C3 (amended): in the full model of `fetchResourceFromLinkIfNecessary`
with the recursive `getAndWriteResourceToFile`, (1) a link occurrence
whose resolved URL is already in the content-type cache issues no GET,
leaves cache and log untouched, and localizes with the stored content
type; and (2) when every GET succeeds and no fetched resource is itself a
stylesheet (no content type starts `text/css`, so the CSS rewriter never
re-enters the fetcher), at most one GET is issued per URL string over any
sequence of well-formed link occurrences of a page, from its fresh empty
cache and at every recursion fuel. -/
theorem c3_cacheDedupAmended :
    (∀ (oracle : FetchOracle2) (base : GoURL) (dirpath : String) (u : GoURL)
       (st : RecState) (ct : String) (fuel : Nat),
      u.opaquePart = "" → u.path ≠ "" →
      List.lookup (urlString (resolveReference base u)) st.cache = some ct →
      bRec oracle (fuel+1) (.link base dirpath u) st =
        { ok := (bRelativeReference dirpath (resolveReference base u) ct).isSome,
          replaced := bRelativeReference dirpath (resolveReference base u) ct,
          st := st }) ∧
    (∀ (oracle : FetchOracle2) (base : GoURL) (dirpath : String),
      base.scheme ≠ "" → strContains base.scheme ":" = false →
      (∀ v, (oracle v).isSome = true) →
      (∀ v p, oracle v = some p → strHasGoPrefix p.1 "text/css" = false) →
      ∀ (occs : List GoURL), (∀ u ∈ occs, wfOcc u) →
      ∀ (fuel : Nat) (s : String),
        countOccur s
          (bProcessLinksRec oracle base dirpath fuel occs { cache := [], log := [] }).log ≤ 1) := by
  constructor
  · intro oracle base dirpath u st ct fuel hop hp hlook
    rw [bRec_link_eq, if_pos hop, if_neg hp]
    dsimp only
    rw [hlook]
    cases hb : bRelativeReference dirpath (resolveReference base u) ct <;> simp [hb]
  · intro oracle base dirpath hbs hbf hsucc hcss occs hwf fuel s
    match fuel with
    | 0 =>
      rw [bProcessRec_inert oracle base dirpath 0
        (fun u s => bRec_zero_st oracle (.link base dirpath u) s) occs _]
      simp [countOccur]
    | 1 =>
      rw [bProcessRec_inert oracle base dirpath 1
        (fun u s => bRec_one_link_st oracle base dirpath u s) occs _]
      simp [countOccur]
    | (f+2) =>
      rw [bProcessRec_flat oracle hcss base dirpath f occs { cache := [], log := [] }]
      dsimp only
      have horacle : ∀ v, ((oracleCt oracle) v).isSome = true := by
        intro v
        have hv := hsucc v
        cases ho : oracle v with
        | none => rw [ho] at hv; exact absurd hv (by simp)
        | some p => simp [oracleCt, ho]
      have h := (bProcess_fetch_bound base dirpath (oracleCt oracle) hbs hbf horacle occs hwf []
        (by intro kv hkv; exact absurd hkv (by simp))).2 s
      simpa using h

/-- C3 (amended, witness): on page `http://h.example/p/x`, a lookup of
`a.png` in a cache already holding its resolved key issues no GET and
reuses the stored content type, and two occurrences of `a.png` with a
non-stylesheet oracle cause at most one GET. -/
theorem c3_cacheDedupAmended_w :
    bRec (fun _ => some ("image/png", [])) 1
        (.link { scheme := "http", host := "h.example", path := "/p/x" } "/p"
          { path := "a.png" })
        { cache := [("http://h.example/p/a.png", "image/png")], log := [] } =
      { ok := (bRelativeReference "/p"
          (resolveReference { scheme := "http", host := "h.example", path := "/p/x" }
            { path := "a.png" }) "image/png").isSome,
        replaced := bRelativeReference "/p"
          (resolveReference { scheme := "http", host := "h.example", path := "/p/x" }
            { path := "a.png" }) "image/png",
        st := { cache := [("http://h.example/p/a.png", "image/png")], log := [] } } ∧
    countOccur "http://h.example/p/a.png"
      (bProcessLinksRec (fun _ => some ("image/png", []))
        { scheme := "http", host := "h.example", path := "/p/x" } "/p" 9
        [{ path := "a.png" }, { path := "a.png" }] { cache := [], log := [] }).log ≤ 1 :=
  ⟨c3_cacheDedupAmended.1 (fun _ => some ("image/png", []))
      { scheme := "http", host := "h.example", path := "/p/x" } "/p" { path := "a.png" }
      { cache := [("http://h.example/p/a.png", "image/png")], log := [] } "image/png" 0
      (by decide) (by decide) (by decide),
   c3_cacheDedupAmended.2 (fun _ => some ("image/png", []))
      { scheme := "http", host := "h.example", path := "/p/x" } "/p" (by decide) (by decide)
      (fun _ => rfl) (fun v p h => by cases h; decide)
      [{ path := "a.png" }, { path := "a.png" }] (by decide) 9 "http://h.example/p/a.png"⟩
